import Mathlib

/-!
Verification of the asynchronous video-processing pipeline of the
PulseGen video streaming repository.

The development shallowly embeds the pipeline's data model and operations:

* `analyzeFrameVision` — the categorical (Google Cloud Vision) per-frame
  classifier branch of `analyzeFrame` (backend/utils/videoProcessor.js).
* `extractFrames` — the frame sampler (`extractFrames` in videoProcessor.js);
  the per-timestamp existence checks of the produced screenshot files are
  modelled by the predicate argument `ok`.
* `analyzeVideoSensitivity` / `aggregateVerdict` — the sensitivity analysis
  and its verdict aggregation (videoProcessor.js).  The external effects are
  inputs: `extraction` is the outcome of the frame-extraction race (timeout
  or file list), `classify i` the outcome of the classification of the i-th
  extracted frame (timeout / transport failure or a verdict), and
  `unexpected` a hypothetical exception reaching the outer catch.
* `analysisCalls` — the progress-callback invocations `analyzeVideoSensitivity`
  performs, in order.
* `processVideoAsync` — the orchestrator (backend/middleware/upload.js,
  `processVideoAsync`), embedded as the trace of persistence writes and
  socket emissions it performs, as a function of the run's inputs
  (`RunInputs`), including the possible failure points of its awaited steps.
* `applyFrameEvent` — the client-side frame-record accumulation step of the
  `onVideoProgress` handler (frontend VideoUpload.jsx).
-/

/-! ## Status and message strings (verbatim from the source) -/

def processingS : String := "processing"

def analyzingS : String := "analyzing"

def compressingS : String := "compressing"

def finalizingS : String := "finalizing"

def completedS : String := "completed"

def flaggedS : String := "flagged"

def failedS : String := "failed"

def safeS : String := "safe"

def noApiMsg : String := "No content detection API configured - manual review required"

def tooShortMsg : String := "Video duration too short for analysis"

def extractionFailedMsg : String := "Frame extraction failed - manual review recommended"

def analysisErrorMsg : String := "Analysis error - manual review required"

def noApiStatusMsg : String := "No API configured - flagging for review"

def tooShortStatusMsg : String := "Video too short"

def extractingStatusMsg : String := "Extracting frames..."

def analyzingFramesStatusMsg : String := "Analyzing frames..."

def frameStatusMsg (i n : ℕ) : String :=
  "Analyzing frame " ++ toString i ++ "/" ++ toString n ++ "..."

def explicitThresholdMsg (c n : ℕ) : String :=
  "Explicit content detected in " ++ toString c ++ " of " ++ toString n ++ " frames"

def violentThresholdMsg (c n : ℕ) : String :=
  "Violent content detected in " ++ toString c ++ " of " ++ toString n ++ " frames"

def explicitSubMsg (c : ℕ) : String :=
  "Potential explicit content detected in " ++ toString c ++ " frame(s) - manual review recommended"

def violentSubMsg (c : ℕ) : String :=
  "Potential violent content detected in " ++ toString c ++ " frame(s) - manual review recommended"

def largeFileMsg : String := "Large file size - requires manual review"

def longDurationMsg : String := "Long duration - requires manual review"

def veryLikelyS : String := "VERY_LIKELY"

def likelyS : String := "LIKELY"

def possibleS : String := "POSSIBLE"

/-! ## Per-frame classification -/

/-- Verdict of one per-frame classification call. -/
structure FrameVerdict where
  isExplicit : Bool
  isViolent : Bool
  confidence : ℚ
deriving DecidableEq

/-- The categorical-backend branch of `analyzeFrame`: Google Cloud Vision
SafeSearch likelihood strings for the adult / violence / racy categories are
reduced to a `FrameVerdict` (videoProcessor.js, analyzeFrame). -/
def analyzeFrameVision (adult violence racy : String) : FrameVerdict :=
  let isExplicitAdult := adult == veryLikelyS || adult == likelyS || adult == possibleS
  let isViolent := violence == veryLikelyS || violence == likelyS || violence == possibleS
  let isRacy := racy == veryLikelyS || racy == likelyS
  { isExplicit := isExplicitAdult || isRacy
    isViolent := isViolent
    confidence := if isExplicitAdult || isViolent then 9/10 else 1/2 }

/-- Likelihood at least LIKELY (the spec wording "likely-or-above"). -/
def likelyOrAbove (s : String) : Bool := s == veryLikelyS || s == likelyS

/-- Likelihood at least POSSIBLE. -/
def possibleOrAbove (s : String) : Bool := s == veryLikelyS || s == likelyS || s == possibleS

/-- The hard per-frame timeout, in milliseconds, of the race wrapping each
`analyzeFrame` call inside `analyzeVideoSensitivity`. -/
def frameAnalysisTimeoutMs : ℕ := 5000

/-- One entry of the frameResults list built by `analyzeVideoSensitivity`. -/
structure FrameResult where
  frameNumber : ℕ
  isExplicit : Bool
  isViolent : Bool
  confidence : ℚ
  error : Option String
deriving DecidableEq

/-- The frame result the per-frame loop records for loop index `i` (0-based):
a successful classification keeps the verdict, a timeout or failure is
recorded as an error frame and the loop continues. -/
def mkFrameResult (i : ℕ) (outcome : Except String FrameVerdict) : FrameResult :=
  match outcome with
  | .ok v => ⟨i + 1, v.isExplicit, v.isViolent, v.confidence, none⟩
  | .error e => ⟨i + 1, false, false, 0, some e⟩

/-- The frameResults list built by the per-frame loop over `n` extracted
frames, where `classify i` is the outcome of the (raced) classification of
the frame at loop index `i`. -/
def frameResultsOf (classify : ℕ → Except String FrameVerdict) (n : ℕ) : List FrameResult :=
  (List.range n).map (fun i => mkFrameResult i (classify i))

/-- Number of frames counted as explicit by the loop. -/
def explicitCountOf (classify : ℕ → Except String FrameVerdict) (n : ℕ) : ℕ :=
  ((frameResultsOf classify n).filter (fun r => r.isExplicit)).length

/-- Number of frames counted as violent by the loop. -/
def violentCountOf (classify : ℕ → Except String FrameVerdict) (n : ℕ) : ℕ :=
  ((frameResultsOf classify n).filter (fun r => r.isViolent)).length

/-- Fraction of the `n` analyzed frames counted as explicit. -/
def explicitFracOf (classify : ℕ → Except String FrameVerdict) (n : ℕ) : ℚ :=
  (explicitCountOf classify n : ℚ) / (n : ℚ)

/-- Fraction of the `n` analyzed frames counted as violent. -/
def violentFracOf (classify : ℕ → Except String FrameVerdict) (n : ℕ) : ℚ :=
  (violentCountOf classify n : ℚ) / (n : ℚ)

/-! ## Frame sampling -/

/-- Sampling interval chosen by `analyzeVideoSensitivity`: 2s for videos
shorter than 10s, else 5s. -/
def frameInterval (duration : ℚ) : ℚ := if duration < 10 then 2 else 5

/-- The frame budget `analyzeVideoSensitivity` passes to `extractFrames`:
floor(duration / interval) clamped to [1, 20]. -/
def callerMaxFrames (duration : ℚ) : ℕ :=
  (max 1 (min 20 ⌊duration / frameInterval duration⌋)).toNat

/-- The duration `extractFrames` works with: a falsy (zero) duration
defaults to 60. -/
def extractTotalDuration (duration : ℚ) : ℚ := if duration = 0 then 60 else duration

/-- The frame count `extractFrames` computes: its own floor(duration /
interval), clamped below the caller's budget and forced to at least 1. -/
def extractFrameCount (duration interval : ℚ) (maxFrames : ℕ) : ℕ :=
  (max 1 (min (maxFrames : ℤ) ⌊extractTotalDuration duration / interval⌋)).toNat

/-- `extractFrames` (videoProcessor.js): takes screenshots at timestamps
`min (i * interval) (duration - 1)` for i below the frame count and keeps
the paths of the files that exist afterwards; `ok i` models the existence
check of the i-th screenshot. -/
def extractFrames (duration interval : ℚ) (maxFrames : ℕ) (ok : ℕ → Bool) : List ℚ :=
  ((List.range (extractFrameCount duration interval maxFrames)).filter ok).map
    (fun (i : ℕ) => min ((i : ℚ) * interval) (extractTotalDuration duration - 1))

/-! ## Sensitivity aggregation -/

/-- The frameAnalysis block of the final verdict. -/
structure FrameAnalysisSummary where
  totalFrames : ℕ
  explicitFrames : ℕ
  violentFrames : ℕ
  frameResults : List FrameResult
deriving DecidableEq

/-- The job-level sensitivity verdict returned by `analyzeVideoSensitivity`. -/
structure Verdict where
  status : String
  confidence : ℚ
  reasons : List String
  frameAnalysis : Option FrameAnalysisSummary
deriving DecidableEq

/-- Flagging threshold for the explicit / violent frame fractions (0.15). -/
def thresholdQ : ℚ := 3/20

/-- The advisory reasons appended after the status determination: large file
size (> 200MB) and long duration (> 3600s); they never change the status. -/
def advisoryReasons (duration size : ℚ) : List String :=
  (if 200 * 1024 * 1024 < size then [largeFileMsg] else []) ++
  (if 3600 < duration then [longDurationMsg] else [])

/-- The tail of `analyzeVideoSensitivity` once frames have been analyzed:
the status determination from the explicit / violent counts over `n` frames;
the advisory reasons are appended to whichever branch's reasons apply. -/
def aggregateVerdict (duration size : ℚ) (n ec vc : ℕ) (frameResults : List FrameResult) :
    Verdict :=
  let eFrac : ℚ := (ec : ℚ) / (n : ℚ)
  let vFrac : ℚ := (vc : ℚ) / (n : ℚ)
  let fa : Option FrameAnalysisSummary := some ⟨n, ec, vc, frameResults⟩
  if thresholdQ < eFrac ∨ thresholdQ < vFrac then
    { status := flaggedS, confidence := max eFrac vFrac
      reasons :=
        ((if 0 < ec then [explicitThresholdMsg ec n] else []) ++
         (if 0 < vc then [violentThresholdMsg vc n] else [])) ++
        advisoryReasons duration size
      frameAnalysis := fa }
  else if 0 < ec ∨ 0 < vc then
    { status := flaggedS, confidence := 7/10
      reasons :=
        ((if 0 < ec then [explicitSubMsg ec] else []) ++
         (if 0 < vc then [violentSubMsg vc] else [])) ++
        advisoryReasons duration size
      frameAnalysis := fa }
  else
    { status := safeS, confidence := 17/20, reasons := advisoryReasons duration size
      frameAnalysis := fa }

/-- `analyzeVideoSensitivity` (videoProcessor.js): the whole body runs in a
try/catch whose catch returns a flagged verdict (`unexpected` models an
exception reaching that catch); otherwise: without a configured backend the
video is flagged for review without sampling; durations under 3s are safe
without sampling; a failed or empty extraction is safe with a review note;
otherwise the extracted frames are classified one by one and aggregated. -/
def analyzeVideoSensitivity (unexpected : Option String) (backendAvailable : Bool)
    (duration size : ℚ) (extraction : Except String (List ℚ))
    (classify : ℕ → Except String FrameVerdict) : Verdict :=
  match unexpected with
  | some _ => { status := flaggedS, confidence := 1/2, reasons := [analysisErrorMsg], frameAnalysis := none }
  | none =>
    if !backendAvailable then
      { status := flaggedS, confidence := 1/2, reasons := [noApiMsg], frameAnalysis := none }
    else if duration < 3 then
      { status := safeS, confidence := 3/10, reasons := [tooShortMsg], frameAnalysis := none }
    else
      match extraction with
      | .error _ =>
        { status := safeS, confidence := 1/2, reasons := [extractionFailedMsg], frameAnalysis := none }
      | .ok frames =>
        if frames.length = 0 then
          { status := safeS, confidence := 1/2, reasons := [extractionFailedMsg], frameAnalysis := none }
        else
          aggregateVerdict duration size frames.length
            (explicitCountOf classify frames.length)
            (violentCountOf classify frames.length)
            (frameResultsOf classify frames.length)

/-! ## Progress callbacks of the sensitivity analysis -/

/-- One invocation of the progress callback passed to
`analyzeVideoSensitivity`: internal progress (0-100), a status message and
the frame-related details the code attaches. -/
structure ProgressCall where
  progress : ℚ
  status : String
  currentFrame : Option ℕ
  totalFrames : Option ℕ
  frameResult : Option FrameResult
deriving DecidableEq

/-- The internal progress the loop reports for frame index `i` of `n`:
30 + ((i+1)/n)*20. -/
def perFrameProgress (i n : ℕ) : ℚ := 30 + (((i : ℚ) + 1) / (n : ℚ)) * 20

/-- The two (on success) or one (on failure) callback invocations the
per-frame loop performs for loop index `i` of `n` frames: both report
`perFrameProgress i n`; the second carries the completed frame result
(an error frame when the classification failed). -/
def perFrameCalls (classify : ℕ → Except String FrameVerdict) (n : ℕ) : List ProgressCall :=
  (List.range n).flatMap (fun i =>
    match classify i with
    | .ok v =>
      [⟨perFrameProgress i n, frameStatusMsg (i + 1) n, some (i + 1), some n, none⟩,
       ⟨perFrameProgress i n, frameStatusMsg (i + 1) n, some (i + 1), some n,
         some (mkFrameResult i (.ok v))⟩]
    | .error e =>
      [⟨perFrameProgress i n, frameStatusMsg (i + 1) n, some (i + 1), some n,
        some (mkFrameResult i (.error e))⟩])

/-- The callback invocations performed after the frame-extraction attempt:
none when extraction failed or produced no frames, otherwise the
frames-analysis announcement followed by the per-frame calls. -/
def extractionCalls (extraction : Except String (List ℚ))
    (classify : ℕ → Except String FrameVerdict) : List ProgressCall :=
  match extraction with
  | .error _ => []
  | .ok frames =>
    if frames.length = 0 then []
    else
      ⟨30, analyzingFramesStatusMsg, none, some frames.length, none⟩ ::
      perFrameCalls classify frames.length

/-- The ordered list of progress-callback invocations
`analyzeVideoSensitivity` performs, per branch of its control flow. -/
def analysisCalls (backendAvailable : Bool) (duration : ℚ)
    (extraction : Except String (List ℚ))
    (classify : ℕ → Except String FrameVerdict) : List ProgressCall :=
  if !backendAvailable then [⟨100, noApiStatusMsg, none, none, none⟩]
  else if duration < 3 then [⟨100, tooShortStatusMsg, none, none, none⟩]
  else
    ⟨10, extractingStatusMsg, none, some (callerMaxFrames duration), none⟩ ::
    extractionCalls extraction classify

/-! ## The orchestrator trace -/

/-- An observable step of `processVideoAsync` (backend/middleware/upload.js):
a socket progress emission, a write to the persisted job record (the fields
it sets: optional status and the processingProgress value), or the terminal
completion emission. -/
inductive TraceAction
  | emitProgress (progress : ℚ) (status : String)
      (currentFrame totalFrames : Option ℕ) (frameResult : Option FrameResult)
  | persist (status : Option String) (progress : ℚ)
  | emitComplete (status : String) (progress : Option ℚ)
      (sensitivityStatus : Option String) (error : Option String)
deriving DecidableEq

/-- The awaited steps of `processVideoAsync` that can reject: the awaited
persistence writes, the sensitivity-analysis call and the transcode call
(the fire-and-forget persistence inside the analysis callback swallows its
own failures and cannot reject the pipeline). -/
inductive FailPoint
  | persistStart
  | persistAnalyzing
  | analysisCall
  | persistCompressing
  | transcode
  | persistFinalizing
  | persistTerminal
deriving DecidableEq

/-- The inputs determining one run of `processVideoAsync`: the inputs of the
sensitivity analysis, the transcoder's reported percentages (those delivered
before its completion or failure), the step that rejects (if any) and the
message of the exception it rejects with. -/
structure RunInputs where
  backendAvailable : Bool
  duration : ℚ
  size : ℚ
  extraction : Except String (List ℚ)
  classify : ℕ → Except String FrameVerdict
  transcodePercents : List ℚ
  failAt : Option FailPoint
  errMsg : String

/-- The orchestrator's progress-callback body: emit the mapped progress
(30 + p*0.2, the [30,50] analysis window) with the call's details, then
fire a persistence write of the same progress with status analyzing. -/
def mapCall (c : ProgressCall) : List TraceAction :=
  [.emitProgress (30 + c.progress / 5) c.status c.currentFrame c.totalFrames c.frameResult,
   .persist (some analyzingS) (30 + c.progress / 5)]

/-- Actions of the analysis stage: each callback first emits, then persists. -/
def analysisActions (inp : RunInputs) : List TraceAction :=
  (analysisCalls inp.backendAvailable inp.duration inp.extraction inp.classify).flatMap mapCall

/-- Emissions of the transcode stage: each reported percentage p is emitted
as 50 + min(p,100)*0.4 (the [50,90] compression window); this stage persists
nothing. -/
def transcodeEmits (ps : List ℚ) : List TraceAction :=
  ps.map (fun p => .emitProgress (50 + min p 100 * (2/5)) compressingS none none none)

/-- The catch block of `processVideoAsync`: persist status failed with
progress 0, then emit the terminal completion event carrying the raw
exception message. -/
def failTail (msg : String) : List TraceAction :=
  [.persist (some failedS) 0, .emitComplete failedS none none (some msg)]

/-- The verdict of the analysis stage of a run. -/
def verdictOf (inp : RunInputs) : Verdict :=
  analyzeVideoSensitivity none inp.backendAvailable inp.duration inp.size
    inp.extraction inp.classify

/-- The final job status: flagged when the sensitivity verdict is flagged,
completed otherwise. -/
def finalStatusOf (inp : RunInputs) : String :=
  if (verdictOf inp).status == flaggedS then flaggedS else completedS

/-- The actions up to the start of the analysis stage: emit 10/processing,
persist it, emit 30/analyzing, persist it. -/
def preAnalyzing : List TraceAction :=
  [.emitProgress 10 processingS none none none,
   .persist (some processingS) 10,
   .emitProgress 30 analyzingS none none none,
   .persist (some analyzingS) 30]

/-- Actions from the start of the compression stage up to (and excluding)
step 95/finalizing: emit 50/compressing, persist progress 50, then the
transcoder's emissions. -/
def compressingActions (inp : RunInputs) : List TraceAction :=
  [.emitProgress 50 compressingS none none none, .persist none 50] ++
  transcodeEmits inp.transcodePercents

/-- The terminal actions of a successful run: persist the final status with
progress 100, then emit the terminal completion event (progress 100, the
sensitivity status, no error). -/
def successTail (inp : RunInputs) : List TraceAction :=
  [.persist (some (finalStatusOf inp)) 100,
   .emitComplete (finalStatusOf inp) (some 100) (some (verdictOf inp).status) none]

/-- The trace of observable actions of one `processVideoAsync` run.  On the
success path the stages run in order; a rejecting awaited step truncates the
trace at that step and appends the catch block's actions. -/
def processVideoAsync (inp : RunInputs) : List TraceAction :=
  match inp.failAt with
  | some .persistStart =>
    [.emitProgress 10 processingS none none none] ++ failTail inp.errMsg
  | some .persistAnalyzing =>
    [.emitProgress 10 processingS none none none,
     .persist (some processingS) 10,
     .emitProgress 30 analyzingS none none none] ++ failTail inp.errMsg
  | some .analysisCall =>
    preAnalyzing ++ failTail inp.errMsg
  | some .persistCompressing =>
    preAnalyzing ++ analysisActions inp ++
    [.emitProgress 50 compressingS none none none] ++ failTail inp.errMsg
  | some .transcode =>
    preAnalyzing ++ analysisActions inp ++ compressingActions inp ++ failTail inp.errMsg
  | some .persistFinalizing =>
    preAnalyzing ++ analysisActions inp ++ compressingActions inp ++
    [.emitProgress 95 finalizingS none none none] ++ failTail inp.errMsg
  | some .persistTerminal =>
    preAnalyzing ++ analysisActions inp ++ compressingActions inp ++
    [.emitProgress 95 finalizingS none none none, .persist none 95] ++ failTail inp.errMsg
  | none =>
    preAnalyzing ++ analysisActions inp ++ compressingActions inp ++
    [.emitProgress 95 finalizingS none none none, .persist none 95] ++ successTail inp

/-! ## Observables of an action -/

/-- The progress value an action carries, when it carries one. -/
def progressOf : TraceAction → Option ℚ
  | .emitProgress p _ _ _ _ => some p
  | .persist _ p => some p
  | .emitComplete _ p _ _ => p

/-- The progress values along a trace, in order. -/
def progressValues (tr : List TraceAction) : List ℚ := tr.filterMap progressOf

/-- Whether a persisted or emitted status string is terminal. -/
def isTerminalStatus (s : String) : Bool := s == completedS || s == flaggedS || s == failedS

/-- Whether an action records or announces a terminal stage. -/
def isTerminalAction : TraceAction → Bool
  | .persist (some s) _ => isTerminalStatus s
  | .persist none _ => false
  | .emitComplete _ _ _ _ => true
  | .emitProgress _ _ _ _ _ => false

/-- The raw error message an emitted (observer-visible) event carries, if
any: the error field of the terminal event, or the error of an embedded
frame record. -/
def errorOf : TraceAction → Option String
  | .emitProgress _ _ _ _ fr => fr.bind FrameResult.error
  | .persist _ _ => none
  | .emitComplete _ _ _ e => e

/-! ## Client-side frame accumulation -/

/-- The frame-record accumulation step of the `onVideoProgress` handler
(frontend VideoUpload.jsx): an event without a frame payload (or with a
falsy frame number) keeps the accumulated records; an event with one drops
any record of the same frame number, appends the new record and re-sorts by
frame number. -/
def applyFrameEvent (prev : List FrameResult) (payload : Option FrameResult) :
    List FrameResult :=
  match payload with
  | none => prev
  | some r =>
    if r.frameNumber = 0 then prev
    else
      ((prev.filter (fun f => f.frameNumber != r.frameNumber)) ++ [r]).mergeSort
        (fun a b => a.frameNumber ≤ b.frameNumber)

/-! ## Concrete instances used by witnesses and counterexamples -/

def unlikelyS : String := "UNLIKELY"

def timeoutMsg : String := "Frame analysis timeout"

def boomMsg : String := "boom"

/-- A classifier whose every call succeeds with a safe verdict. -/
def clAllSafe : ℕ → Except String FrameVerdict := fun _ => .ok ⟨false, false, 1/5⟩

/-- A classifier flagging exactly the first frame as explicit. -/
def clFirstExplicit : ℕ → Except String FrameVerdict :=
  fun i => if i = 0 then .ok ⟨true, false, 9/10⟩ else .ok ⟨false, false, 1/5⟩

/-- A classifier whose second call fails with a timeout. -/
def clSecondFails : ℕ → Except String FrameVerdict :=
  fun i => if i = 1 then .error timeoutMsg else .ok ⟨false, false, 1/5⟩

/-- Screenshot-existence outcome where the fourth screenshot is missing. -/
def okDrop : ℕ → Bool := fun i => i != 3

/-- Screenshot-existence outcome where every screenshot exists. -/
def okAll : ℕ → Bool := fun _ => true

/-- The sampled timestamps of an 8-second video (interval 2s, 4 frames). -/
def framesD8 : List ℚ := [0, 2, 4, 6]

/-- The sampled timestamps of a 60-second video (interval 5s, 10 frames
within the budget of 12). -/
def framesD60 : List ℚ := [0, 5, 10, 15, 20, 25, 30, 35, 40, 45]

def inpC1 : RunInputs := ⟨false, 8, 0, .ok [], clAllSafe, [], none, boomMsg⟩

def inpC2 : RunInputs := ⟨false, 8, 0, .ok [], clAllSafe, [], some .persistCompressing, boomMsg⟩

def inpC2W : RunInputs := ⟨false, 8, 0, .ok [], clAllSafe, [0, 100], none, boomMsg⟩

def inpC3W : RunInputs := ⟨false, 8, 0, .ok [], clAllSafe, [], some .transcode, boomMsg⟩

def inpC9 : RunInputs := ⟨false, 8, 0, .ok [], clAllSafe, [], some .transcode, boomMsg⟩

def inpC9W : RunInputs := ⟨false, 8, 0, .ok [], clAllSafe, [], some .persistFinalizing, boomMsg⟩

def inpC1W : RunInputs := ⟨true, 8, 0, .ok framesD8, clFirstExplicit, [50], none, boomMsg⟩

/-- A previously accumulated client frame list. -/
def prevC8 : List FrameResult := [⟨1, false, false, 1/5, none⟩, ⟨3, true, false, 1, none⟩]

/-- An incoming frame record replacing frame number 3. -/
def recC8 : FrameResult := ⟨3, false, true, 1/2, none⟩

/-- Adjacency relation of the notify-then-write discipline: whenever the
second of two consecutive trace actions is a non-terminal persistence
write, the first is the progress emission carrying the same progress
value. -/
def emitPersistAdj (a b : TraceAction) : Prop :=
  ∀ (os : Option String) (p : ℚ), b = .persist os p → isTerminalAction b = false →
    ∃ (st : String) (cf tf : Option ℕ) (fr : Option FrameResult),
      a = .emitProgress p st cf tf fr

/-! ## Helper lemmas: the aggregator -/

theorem aggregateVerdict_frameAnalysis (d sz : ℚ) (n ec vc : ℕ) (fr : List FrameResult) :
    (aggregateVerdict d sz n ec vc fr).frameAnalysis = some ⟨n, ec, vc, fr⟩ := by
  simp only [aggregateVerdict]
  split
  · rfl
  split <;> rfl

theorem aggregateVerdict_status_or (d sz : ℚ) (n ec vc : ℕ) (fr : List FrameResult) :
    (aggregateVerdict d sz n ec vc fr).status = safeS ∨
    (aggregateVerdict d sz n ec vc fr).status = flaggedS := by
  simp only [aggregateVerdict]
  split
  · right; rfl
  split
  · right; rfl
  · left; rfl

theorem analyzeVideoSensitivity_none_backend (d sz : ℚ) (ext : Except String (List ℚ))
    (cl : ℕ → Except String FrameVerdict) :
    analyzeVideoSensitivity none false d sz ext cl =
      ⟨flaggedS, 1/2, [noApiMsg], none⟩ := rfl

theorem analyzeVideoSensitivity_short (d sz : ℚ) (ext : Except String (List ℚ))
    (cl : ℕ → Except String FrameVerdict) (h : d < 3) :
    analyzeVideoSensitivity none true d sz ext cl = ⟨safeS, 3/10, [tooShortMsg], none⟩ := by
  simp [analyzeVideoSensitivity, h]

theorem analyzeVideoSensitivity_extraction_error (d sz : ℚ) (e : String)
    (cl : ℕ → Except String FrameVerdict) (h : 3 ≤ d) :
    analyzeVideoSensitivity none true d sz (.error e) cl =
      ⟨safeS, 1/2, [extractionFailedMsg], none⟩ := by
  simp [analyzeVideoSensitivity, not_lt.2 h]

theorem analyzeVideoSensitivity_no_frames (d sz : ℚ)
    (cl : ℕ → Except String FrameVerdict) (h : 3 ≤ d) :
    analyzeVideoSensitivity none true d sz (.ok []) cl =
      ⟨safeS, 1/2, [extractionFailedMsg], none⟩ := by
  simp [analyzeVideoSensitivity, not_lt.2 h]

theorem analyzeVideoSensitivity_main (d sz : ℚ) (frames : List ℚ)
    (cl : ℕ → Except String FrameVerdict) (h : 3 ≤ d) (hne : frames ≠ []) :
    analyzeVideoSensitivity none true d sz (.ok frames) cl =
      aggregateVerdict d sz frames.length (explicitCountOf cl frames.length)
        (violentCountOf cl frames.length) (frameResultsOf cl frames.length) := by
  have hlen : frames.length ≠ 0 := by simpa using hne
  simp [analyzeVideoSensitivity, not_lt.2 h, hlen]

theorem aggregateVerdict_threshold (d sz : ℚ) (n ec vc : ℕ) (fr : List FrameResult)
    (h : thresholdQ < max ((ec : ℚ) / (n : ℚ)) ((vc : ℚ) / (n : ℚ))) :
    (aggregateVerdict d sz n ec vc fr).status = flaggedS ∧
    (aggregateVerdict d sz n ec vc fr).confidence =
      max ((ec : ℚ) / (n : ℚ)) ((vc : ℚ) / (n : ℚ)) := by
  have h' : thresholdQ < (ec : ℚ) / (n : ℚ) ∨ thresholdQ < (vc : ℚ) / (n : ℚ) :=
    lt_max_iff.mp h
  simp only [aggregateVerdict]
  rw [if_pos h']
  exact ⟨rfl, rfl⟩

theorem aggregateVerdict_subthreshold (d sz : ℚ) (n ec vc : ℕ) (fr : List FrameResult)
    (h : ¬ thresholdQ < max ((ec : ℚ) / (n : ℚ)) ((vc : ℚ) / (n : ℚ)))
    (hpos : 0 < ec ∨ 0 < vc) :
    (aggregateVerdict d sz n ec vc fr).status = flaggedS ∧
    (aggregateVerdict d sz n ec vc fr).confidence = 7/10 := by
  have h' : ¬ (thresholdQ < (ec : ℚ) / (n : ℚ) ∨ thresholdQ < (vc : ℚ) / (n : ℚ)) := by
    rw [← lt_max_iff]; exact h
  simp only [aggregateVerdict]
  rw [if_neg h', if_pos hpos]
  exact ⟨rfl, rfl⟩

theorem aggregateVerdict_clean (d sz : ℚ) (n ec vc : ℕ) (fr : List FrameResult)
    (he : ec = 0) (hv : vc = 0) :
    (aggregateVerdict d sz n ec vc fr).status = safeS ∧
    (aggregateVerdict d sz n ec vc fr).confidence = 17/20 := by
  subst he hv
  have h1 : ¬ (thresholdQ < (0 : ℚ) / (n : ℚ) ∨ thresholdQ < (0 : ℚ) / (n : ℚ)) := by
    rw [zero_div]
    norm_num [thresholdQ]
  have h2 : ¬ ((0 : ℕ) < 0 ∨ (0 : ℕ) < 0) := by norm_num
  simp only [aggregateVerdict, Nat.cast_zero]
  rw [if_neg h1, if_neg h2]
  exact ⟨rfl, rfl⟩

/-! ## Claim C10 -/

/-- Claim C10: the sensitivity analysis is total — for every input (including
every extraction outcome, every per-frame classification outcome and a
hypothetical exception reaching the outer catch) it returns a verdict whose
status is safe or flagged, and an otherwise-uncaught internal error yields
exactly the flagged verdict with confidence 0.5. -/
theorem C10_analysis_total :
    (∀ (u : Option String) (b : Bool) (d sz : ℚ) (ext : Except String (List ℚ))
        (cl : ℕ → Except String FrameVerdict),
      (analyzeVideoSensitivity u b d sz ext cl).status = safeS ∨
      (analyzeVideoSensitivity u b d sz ext cl).status = flaggedS) ∧
    (∀ (msg : String) (b : Bool) (d sz : ℚ) (ext : Except String (List ℚ))
        (cl : ℕ → Except String FrameVerdict),
      analyzeVideoSensitivity (some msg) b d sz ext cl =
        ⟨flaggedS, 1/2, [analysisErrorMsg], none⟩) := by
  constructor
  · intro u b d sz ext cl
    cases u with
    | some m => right; rfl
    | none =>
      cases b with
      | false => right; rfl
      | true =>
        by_cases hd : d < 3
        · rw [analyzeVideoSensitivity_short d sz ext cl hd]; left; rfl
        · have h3 : 3 ≤ d := not_lt.mp hd
          cases ext with
          | error e => rw [analyzeVideoSensitivity_extraction_error d sz e cl h3]; left; rfl
          | ok frames =>
            rcases eq_or_ne frames [] with hfe | hfn
            · subst hfe
              rw [analyzeVideoSensitivity_no_frames d sz cl h3]; left; rfl
            · rw [analyzeVideoSensitivity_main d sz frames cl h3 hfn]
              exact aggregateVerdict_status_or ..
  · intro msg b d sz ext cl
    rfl

/-! ## Claim C4 -/

/-- Claim C4: the aggregator follows the priority-ordered rules: no backend
gives flagged at 0.5 with no frames sampled; else duration < 3s gives safe
at 0.3; else zero usable frames (failed or empty extraction) gives safe at
0.5; else the threshold rule (max fraction > 0.15 gives flagged at that
fraction), the sub-threshold rule (any positive count gives flagged at 0.7)
and the clean rule (safe at 0.85) apply in order. -/
theorem C4_aggregator_rules :
    (∀ (d sz : ℚ) (ext : Except String (List ℚ)) (cl : ℕ → Except String FrameVerdict),
      analyzeVideoSensitivity none false d sz ext cl = ⟨flaggedS, 1/2, [noApiMsg], none⟩) ∧
    (∀ (d sz : ℚ) (ext : Except String (List ℚ)) (cl : ℕ → Except String FrameVerdict),
      d < 3 → analyzeVideoSensitivity none true d sz ext cl =
        ⟨safeS, 3/10, [tooShortMsg], none⟩) ∧
    (∀ (d sz : ℚ) (e : String) (cl : ℕ → Except String FrameVerdict),
      3 ≤ d → analyzeVideoSensitivity none true d sz (.error e) cl =
        ⟨safeS, 1/2, [extractionFailedMsg], none⟩) ∧
    (∀ (d sz : ℚ) (cl : ℕ → Except String FrameVerdict),
      3 ≤ d → analyzeVideoSensitivity none true d sz (.ok []) cl =
        ⟨safeS, 1/2, [extractionFailedMsg], none⟩) ∧
    (∀ (d sz : ℚ) (frames : List ℚ) (cl : ℕ → Except String FrameVerdict),
      3 ≤ d → frames ≠ [] →
      thresholdQ < max (explicitFracOf cl frames.length) (violentFracOf cl frames.length) →
      (analyzeVideoSensitivity none true d sz (.ok frames) cl).status = flaggedS ∧
      (analyzeVideoSensitivity none true d sz (.ok frames) cl).confidence =
        max (explicitFracOf cl frames.length) (violentFracOf cl frames.length)) ∧
    (∀ (d sz : ℚ) (frames : List ℚ) (cl : ℕ → Except String FrameVerdict),
      3 ≤ d → frames ≠ [] →
      ¬ thresholdQ < max (explicitFracOf cl frames.length) (violentFracOf cl frames.length) →
      (0 < explicitCountOf cl frames.length ∨ 0 < violentCountOf cl frames.length) →
      (analyzeVideoSensitivity none true d sz (.ok frames) cl).status = flaggedS ∧
      (analyzeVideoSensitivity none true d sz (.ok frames) cl).confidence = 7/10) ∧
    (∀ (d sz : ℚ) (frames : List ℚ) (cl : ℕ → Except String FrameVerdict),
      3 ≤ d → frames ≠ [] →
      explicitCountOf cl frames.length = 0 → violentCountOf cl frames.length = 0 →
      (analyzeVideoSensitivity none true d sz (.ok frames) cl).status = safeS ∧
      (analyzeVideoSensitivity none true d sz (.ok frames) cl).confidence = 17/20) := by
  refine ⟨analyzeVideoSensitivity_none_backend,
    fun d sz ext cl h => analyzeVideoSensitivity_short d sz ext cl h,
    fun d sz e cl h => analyzeVideoSensitivity_extraction_error d sz e cl h,
    fun d sz cl h => analyzeVideoSensitivity_no_frames d sz cl h, ?_, ?_, ?_⟩
  · intro d sz frames cl h3 hne ht
    rw [analyzeVideoSensitivity_main d sz frames cl h3 hne]
    exact aggregateVerdict_threshold d sz frames.length _ _ _ ht
  · intro d sz frames cl h3 hne ht hpos
    rw [analyzeVideoSensitivity_main d sz frames cl h3 hne]
    exact aggregateVerdict_subthreshold d sz frames.length _ _ _ ht hpos
  · intro d sz frames cl h3 hne he hv
    rw [analyzeVideoSensitivity_main d sz frames cl h3 hne]
    exact aggregateVerdict_clean d sz frames.length _ _ _ he hv

/-- Witness for C4: each rule applied at a concrete input — no backend with
an 8s video; a 2s video; a failed extraction; an empty extraction; 1 of 4
frames explicit (fraction 0.25 > 0.15); 1 of 10 frames explicit (fraction
0.10, sub-threshold); and 4 clean frames. -/
theorem C4_aggregator_rules_witness :
    analyzeVideoSensitivity none false 8 0 (.ok framesD8) clAllSafe =
      ⟨flaggedS, 1/2, [noApiMsg], none⟩ ∧
    analyzeVideoSensitivity none true 2 0 (.ok []) clAllSafe =
      ⟨safeS, 3/10, [tooShortMsg], none⟩ ∧
    analyzeVideoSensitivity none true 8 0 (.error boomMsg) clAllSafe =
      ⟨safeS, 1/2, [extractionFailedMsg], none⟩ ∧
    analyzeVideoSensitivity none true 8 0 (.ok []) clAllSafe =
      ⟨safeS, 1/2, [extractionFailedMsg], none⟩ ∧
    (analyzeVideoSensitivity none true 8 0 (.ok framesD8) clFirstExplicit).status = flaggedS ∧
    (analyzeVideoSensitivity none true 8 0 (.ok framesD8) clFirstExplicit).confidence =
      max (explicitFracOf clFirstExplicit framesD8.length)
        (violentFracOf clFirstExplicit framesD8.length) ∧
    (analyzeVideoSensitivity none true 60 0 (.ok framesD60) clFirstExplicit).status = flaggedS ∧
    (analyzeVideoSensitivity none true 60 0 (.ok framesD60) clFirstExplicit).confidence = 7/10 ∧
    (analyzeVideoSensitivity none true 8 0 (.ok framesD8) clAllSafe).status = safeS ∧
    (analyzeVideoSensitivity none true 8 0 (.ok framesD8) clAllSafe).confidence = 17/20 := by
  have hlen8 : framesD8.length = 4 := by rfl
  have hlen60 : framesD60.length = 10 := by rfl
  have hth : thresholdQ < max (explicitFracOf clFirstExplicit framesD8.length)
      (violentFracOf clFirstExplicit framesD8.length) := by
    rw [hlen8]
    have h1 : explicitCountOf clFirstExplicit 4 = 1 := by decide
    have h2 : violentCountOf clFirstExplicit 4 = 0 := by decide
    rw [explicitFracOf, violentFracOf, h1, h2]
    norm_num [thresholdQ]
  have hth60 : ¬ thresholdQ < max (explicitFracOf clFirstExplicit framesD60.length)
      (violentFracOf clFirstExplicit framesD60.length) := by
    rw [hlen60]
    have h1 : explicitCountOf clFirstExplicit 10 = 1 := by decide
    have h2 : violentCountOf clFirstExplicit 10 = 0 := by decide
    rw [explicitFracOf, violentFracOf, h1, h2]
    norm_num [thresholdQ]
  have hpos60 : 0 < explicitCountOf clFirstExplicit framesD60.length ∨
      0 < violentCountOf clFirstExplicit framesD60.length := by
    left; rw [hlen60]
    have h1 : explicitCountOf clFirstExplicit 10 = 1 := by decide
    omega
  have hsafe1 : explicitCountOf clAllSafe framesD8.length = 0 := by decide
  have hsafe2 : violentCountOf clAllSafe framesD8.length = 0 := by decide
  refine ⟨C4_aggregator_rules.1 8 0 (.ok framesD8) clAllSafe,
    C4_aggregator_rules.2.1 2 0 (.ok []) clAllSafe (by norm_num),
    C4_aggregator_rules.2.2.1 8 0 boomMsg clAllSafe (by norm_num),
    C4_aggregator_rules.2.2.2.1 8 0 clAllSafe (by norm_num),
    (C4_aggregator_rules.2.2.2.2.1 8 0 framesD8 clFirstExplicit (by norm_num)
      (by simp [framesD8]) hth).1,
    (C4_aggregator_rules.2.2.2.2.1 8 0 framesD8 clFirstExplicit (by norm_num)
      (by simp [framesD8]) hth).2,
    (C4_aggregator_rules.2.2.2.2.2.1 60 0 framesD60 clFirstExplicit (by norm_num)
      (by simp [framesD60]) hth60 hpos60).1,
    (C4_aggregator_rules.2.2.2.2.2.1 60 0 framesD60 clFirstExplicit (by norm_num)
      (by simp [framesD60]) hth60 hpos60).2,
    (C4_aggregator_rules.2.2.2.2.2.2 8 0 framesD8 clAllSafe (by norm_num)
      (by simp [framesD8]) hsafe1 hsafe2).1,
    (C4_aggregator_rules.2.2.2.2.2.2 8 0 framesD8 clAllSafe (by norm_num)
      (by simp [framesD8]) hsafe1 hsafe2).2⟩

/-! ## Claim C7 -/

/-- Counterexample for C7 as stated: a frame whose adult likelihood is only
POSSIBLE is classified explicit although POSSIBLE is below likely-or-above,
and a frame flagged explicit solely through the racy category (LIKELY) gets
confidence 0.5, not 0.9. -/
theorem C7_counterexample :
    (analyzeFrameVision possibleS unlikelyS unlikelyS).isExplicit = true ∧
    likelyOrAbove possibleS = false ∧
    likelyOrAbove unlikelyS = false ∧
    (analyzeFrameVision unlikelyS unlikelyS likelyS).isExplicit = true ∧
    (analyzeFrameVision unlikelyS unlikelyS likelyS).confidence = 1/2 ∧
    ((1 : ℚ)/2 ≠ 9/10) := by
  refine ⟨rfl, rfl, rfl, rfl, rfl, by norm_num⟩

/-- Claim C7 amended: in the categorical backend the adult and violence
categories count from POSSIBLE upwards (not likely-or-above), only the racy
category counts from LIKELY upwards, and the 0.9 confidence is granted by
the adult or violence categories alone — a frame flagged only through racy
keeps confidence 0.5. -/
theorem C7_categorical_backend :
    ∀ adult violence racy : String,
      (analyzeFrameVision adult violence racy).isExplicit =
        (possibleOrAbove adult || likelyOrAbove racy) ∧
      (analyzeFrameVision adult violence racy).isViolent = possibleOrAbove violence ∧
      (analyzeFrameVision adult violence racy).confidence =
        (if possibleOrAbove adult || possibleOrAbove violence then 9/10 else 1/2) := by
  intro adult violence racy
  refine ⟨rfl, rfl, ?_⟩
  simp only [analyzeFrameVision, possibleOrAbove]

/-! ## Claim C5 -/

/-- Claim C5: per-frame failure isolation — each per-frame call is raced
against the (5000 ms) timeout, and when the classification of loop index `i`
fails, the loop records exactly the error frame (frameNumber i+1, not
explicit, not violent, confidence 0, the error cause) while the batch
continues: the result list still has one record per frame. -/
theorem C5_frame_failure_isolated :
    ∀ (cl : ℕ → Except String FrameVerdict) (n i : ℕ) (e : String),
      i < n → cl i = .error e →
      (frameResultsOf cl n)[i]? = some ⟨i + 1, false, false, 0, some e⟩ ∧
      (frameResultsOf cl n).length = n ∧
      frameAnalysisTimeoutMs = 5000 := by
  intro cl n i e hi hcl
  refine ⟨?_, by simp [frameResultsOf], rfl⟩
  rw [frameResultsOf, List.getElem?_map, List.getElem?_range hi]
  simp [mkFrameResult, hcl]

/-- Witness for C5: with a 4-frame batch whose second classification times
out, the second record is the error frame and all 4 records exist. -/
theorem C5_frame_failure_isolated_witness :
    (frameResultsOf clSecondFails 4)[1]? = some ⟨2, false, false, 0, some timeoutMsg⟩ ∧
    (frameResultsOf clSecondFails 4).length = 4 ∧
    frameAnalysisTimeoutMs = 5000 :=
  C5_frame_failure_isolated clSecondFails 4 1 timeoutMsg (by norm_num) rfl

/-! ## Helper lemmas: frame sampling -/

theorem one_le_floor_div (d : ℚ) (h : 3 ≤ d) : 1 ≤ ⌊d / frameInterval d⌋ := by
  rw [Int.le_floor]
  unfold frameInterval
  split_ifs with h10
  · rw [le_div_iff₀ (by norm_num)]
    push_cast
    linarith
  · rw [le_div_iff₀ (by norm_num)]
    push_cast
    linarith [not_lt.mp h10]

theorem extractTotalDuration_pos (d : ℚ) (h : 3 ≤ d) : extractTotalDuration d = d := by
  rw [extractTotalDuration, if_neg]
  intro h0
  rw [h0] at h
  norm_num at h

theorem extractFrameCount_of_caller (d : ℚ) (h : 3 ≤ d) :
    extractFrameCount d (frameInterval d) (callerMaxFrames d) = callerMaxFrames d := by
  have hc := one_le_floor_div d h
  rw [extractFrameCount, extractTotalDuration_pos d h]
  unfold callerMaxFrames
  omega

theorem extractFrames_length_all (d : ℚ) (ok : ℕ → Bool) (h : 3 ≤ d)
    (hok : ∀ i, ok i = true) :
    (extractFrames d (frameInterval d) (callerMaxFrames d) ok).length = callerMaxFrames d := by
  rw [extractFrames, List.filter_eq_self.mpr (fun a _ => hok a), List.length_map,
    List.length_range, extractFrameCount_of_caller d h]

theorem frameResultsOf_numbers (cl : ℕ → Except String FrameVerdict) (n : ℕ) :
    (frameResultsOf cl n).map (fun r => r.frameNumber) = List.range' 1 n := by
  rw [frameResultsOf, List.map_map, List.range'_eq_map_range]
  apply List.map_congr_left
  intro i _
  cases h : cl i <;> simp [mkFrameResult, h, Nat.add_comm]

/-! ## Claim C6 -/

/-- Counterexample for C6 as stated: for an 8-second video (frame count
clamp(floor(8/2),1,20) = 4) whose fourth screenshot file is missing, the
analysis produces frame numbers 1..3, not 1..4: the record list does not
match the clamp formula when extraction is partial. -/
theorem C6_counterexample :
    ((analyzeVideoSensitivity none true 8 0
        (.ok (extractFrames 8 (frameInterval 8) (callerMaxFrames 8) okDrop)) clAllSafe).frameAnalysis).map
      (fun fa => fa.frameResults.map (fun r => r.frameNumber)) = some [1, 2, 3] ∧
    callerMaxFrames 8 = 4 ∧
    some ([1, 2, 3] : List ℕ) ≠ some (List.range' 1 (callerMaxFrames 8)) := by
  have hint : frameInterval 8 = 2 := by norm_num [frameInterval]
  have hfloor : ⌊(8 : ℚ) / frameInterval 8⌋ = 4 := by rw [hint]; norm_num
  have hcmf : callerMaxFrames 8 = 4 := by rw [callerMaxFrames, hfloor]; rfl
  have htd : extractTotalDuration 8 = 8 := extractTotalDuration_pos 8 (by norm_num)
  have hcount : extractFrameCount 8 (frameInterval 8) (callerMaxFrames 8) = 4 := by
    rw [extractFrameCount, htd, hfloor, hcmf]
    rfl
  have hlen : (extractFrames 8 (frameInterval 8) (callerMaxFrames 8) okDrop).length = 3 := by
    rw [extractFrames, hcount, List.length_map]
    rfl
  have hne : extractFrames 8 (frameInterval 8) (callerMaxFrames 8) okDrop ≠ [] := by
    intro he
    rw [he] at hlen
    simp at hlen
  refine ⟨?_, hcmf, by rw [hcmf]; decide⟩
  rw [analyzeVideoSensitivity_main 8 0 _ clAllSafe (by norm_num) hne,
    aggregateVerdict_frameAnalysis, hlen]
  simp only [Option.map_some']
  rw [frameResultsOf_numbers]
  rfl

/-- Claim C6 amended: when every screenshot extraction succeeds, the record
list of an analyzed job of duration at least 3s has frame numbers exactly
1..frameCount with frameCount = clamp(floor(D / interval(D)), 1, 20) and
interval(D) = 2 for D < 10 else 5; when some screenshots are missing the
numbering is still gapless and duplicate-free but stops at the number of
extracted frames (see the counterexample). -/
theorem C6_frame_numbering :
    ∀ (d sz : ℚ) (cl : ℕ → Except String FrameVerdict) (ok : ℕ → Bool),
      3 ≤ d → (∀ i, ok i = true) →
      ((analyzeVideoSensitivity none true d sz
          (.ok (extractFrames d (frameInterval d) (callerMaxFrames d) ok)) cl).frameAnalysis).map
        (fun fa => fa.frameResults.map (fun r => r.frameNumber)) =
        some (List.range' 1 (callerMaxFrames d)) ∧
      callerMaxFrames d = (max 1 (min 20 ⌊d / frameInterval d⌋)).toNat ∧
      1 ≤ callerMaxFrames d ∧ callerMaxFrames d ≤ 20 := by
  intro d sz cl ok h3 hok
  have hlen := extractFrames_length_all d ok h3 hok
  have hc := one_le_floor_div d h3
  have h1 : 1 ≤ callerMaxFrames d := by unfold callerMaxFrames; omega
  have hne : extractFrames d (frameInterval d) (callerMaxFrames d) ok ≠ [] := by
    intro he
    rw [he] at hlen
    simp at hlen
    omega
  refine ⟨?_, rfl, h1, by unfold callerMaxFrames; omega⟩
  rw [analyzeVideoSensitivity_main d sz _ cl h3 hne, aggregateVerdict_frameAnalysis, hlen]
  simp only [Option.map_some']
  rw [frameResultsOf_numbers]

/-- Witness for C6: an 8-second video with every extraction succeeding gets
frame numbers exactly 1..4. -/
theorem C6_frame_numbering_witness :
    ((analyzeVideoSensitivity none true 8 0
        (.ok (extractFrames 8 (frameInterval 8) (callerMaxFrames 8) okAll)) clAllSafe).frameAnalysis).map
      (fun fa => fa.frameResults.map (fun r => r.frameNumber)) =
      some (List.range' 1 (callerMaxFrames 8)) ∧
    callerMaxFrames 8 = (max 1 (min 20 ⌊(8 : ℚ) / frameInterval 8⌋)).toNat ∧
    1 ≤ callerMaxFrames 8 ∧ callerMaxFrames 8 ≤ 20 :=
  C6_frame_numbering 8 0 clAllSafe okAll (by norm_num) (fun _ => rfl)

/-! ## Claim C8 -/

/-- Claim C8: the consumer's frame accumulation — an event without a frame
payload leaves the accumulated records untouched (never resets them); an
event with a frame payload yields a list sorted by frame number holding
exactly one record for the payload's frame number (the new one: any held
record of that number is replaced, not duplicated) while records of every
other frame number are preserved. -/
theorem C8_frame_accumulation :
    (∀ prev : List FrameResult, applyFrameEvent prev none = prev) ∧
    (∀ (prev : List FrameResult) (r : FrameResult), r.frameNumber ≠ 0 →
      List.Pairwise (fun a b => a.frameNumber ≤ b.frameNumber) (applyFrameEvent prev (some r)) ∧
      (applyFrameEvent prev (some r)).countP (fun f => f.frameNumber == r.frameNumber) = 1 ∧
      r ∈ applyFrameEvent prev (some r) ∧
      (∀ m : ℕ, m ≠ r.frameNumber →
        (applyFrameEvent prev (some r)).countP (fun f => f.frameNumber == m) =
          prev.countP (fun f => f.frameNumber == m))) := by
  refine ⟨fun prev => rfl, ?_⟩
  intro prev r hr
  have happ : applyFrameEvent prev (some r) =
      ((prev.filter (fun f => f.frameNumber != r.frameNumber)) ++ [r]).mergeSort
        (fun a b => a.frameNumber ≤ b.frameNumber) := by
    rw [applyFrameEvent, if_neg hr]
  have hperm :
      (((prev.filter (fun f => f.frameNumber != r.frameNumber)) ++ [r]).mergeSort
        (fun a b => a.frameNumber ≤ b.frameNumber)).Perm
      ((prev.filter (fun f => f.frameNumber != r.frameNumber)) ++ [r]) :=
    List.mergeSort_perm _ _
  have htrans : ∀ a b c : FrameResult, (decide (a.frameNumber ≤ b.frameNumber)) = true →
      (decide (b.frameNumber ≤ c.frameNumber)) = true →
      (decide (a.frameNumber ≤ c.frameNumber)) = true := by
    intro a b c hab hbc
    rw [decide_eq_true_eq] at *
    omega
  have htotal : ∀ a b : FrameResult,
      (decide (a.frameNumber ≤ b.frameNumber) || decide (b.frameNumber ≤ a.frameNumber)) = true := by
    intro a b
    rcases Nat.le_total a.frameNumber b.frameNumber with h | h <;> simp [h]
  refine ⟨?_, ?_, ?_, ?_⟩
  · rw [happ]
    exact (List.sorted_mergeSort htrans htotal _).imp (fun h => of_decide_eq_true h)
  · rw [happ, List.Perm.countP_eq _ hperm, List.countP_append]
    have h0 : (prev.filter (fun f => f.frameNumber != r.frameNumber)).countP
        (fun f => f.frameNumber == r.frameNumber) = 0 := by
      rw [List.countP_eq_zero]
      intro a ha
      have hne := bne_iff_ne.mp (List.mem_filter.mp ha).2
      simp [hne]
    rw [h0, List.countP_singleton]
    simp
  · rw [happ, (List.Perm.mem_iff hperm)]
    exact List.mem_append_right _ (List.mem_singleton.mpr rfl)
  · intro m hm
    rw [happ, List.Perm.countP_eq _ hperm, List.countP_append, List.countP_singleton]
    have hrm : (r.frameNumber == m) = false := by
      simp [Ne.symm hm]
    rw [hrm]
    simp only [Bool.false_eq_true, if_false, Nat.add_zero]
    rw [List.countP_filter]
    apply List.countP_congr
    intro a _
    by_cases ham : a.frameNumber = m
    · have hanr : a.frameNumber ≠ r.frameNumber := by rw [ham]; exact hm
      simp [ham, hanr, hm]
    · simp [ham]

/-- Witness for C8: accumulating a record for frame 3 over a state holding
frames 1 and 3 replaces the frame-3 record, keeps the frame-1 record and
yields a sorted list. -/
theorem C8_frame_accumulation_witness :
    applyFrameEvent prevC8 none = prevC8 ∧
    List.Pairwise (fun a b => a.frameNumber ≤ b.frameNumber)
      (applyFrameEvent prevC8 (some recC8)) ∧
    (applyFrameEvent prevC8 (some recC8)).countP
      (fun f => f.frameNumber == recC8.frameNumber) = 1 ∧
    recC8 ∈ applyFrameEvent prevC8 (some recC8) ∧
    (applyFrameEvent prevC8 (some recC8)).countP (fun f => f.frameNumber == 1) =
      prevC8.countP (fun f => f.frameNumber == 1) := by
  have h2 := C8_frame_accumulation.2 prevC8 recC8 (by simp [recC8])
  exact ⟨C8_frame_accumulation.1 prevC8, h2.1, h2.2.1, h2.2.2.1,
    h2.2.2.2 1 (by simp [recC8])⟩

/-! ## Helper lemmas: the orchestrator trace -/

theorem mem_mapCall {a : TraceAction} {c : ProgressCall} (h : a ∈ mapCall c) :
    a = .emitProgress (30 + c.progress / 5) c.status c.currentFrame c.totalFrames c.frameResult ∨
    a = .persist (some analyzingS) (30 + c.progress / 5) := by
  simpa [mapCall] using h

theorem mem_analysisActions {a : TraceAction} {inp : RunInputs} (h : a ∈ analysisActions inp) :
    ∃ c ∈ analysisCalls inp.backendAvailable inp.duration inp.extraction inp.classify,
      a = .emitProgress (30 + c.progress / 5) c.status c.currentFrame c.totalFrames c.frameResult ∨
      a = .persist (some analyzingS) (30 + c.progress / 5) := by
  obtain ⟨c, hc, hac⟩ := List.mem_flatMap.mp h
  exact ⟨c, hc, mem_mapCall hac⟩

theorem isTerminalAction_emitProgress (p : ℚ) (st : String) (cf tf : Option ℕ)
    (fr : Option FrameResult) : isTerminalAction (.emitProgress p st cf tf fr) = false := rfl

theorem isTerminalStatus_analyzing : isTerminalStatus analyzingS = false := rfl

theorem nonterminal_preAnalyzing : ∀ a ∈ preAnalyzing, isTerminalAction a = false := by
  intro a ha
  simp only [preAnalyzing, List.mem_cons, List.not_mem_nil, or_false] at ha
  rcases ha with h | h | h | h <;> subst h <;> rfl

theorem nonterminal_analysisActions (inp : RunInputs) :
    ∀ a ∈ analysisActions inp, isTerminalAction a = false := by
  intro a ha
  obtain ⟨c, _, h | h⟩ := mem_analysisActions ha <;> subst h <;> rfl

theorem nonterminal_compressingActions (inp : RunInputs) :
    ∀ a ∈ compressingActions inp, isTerminalAction a = false := by
  intro a ha
  rw [compressingActions] at ha
  rcases List.mem_append.mp ha with h | h
  · simp only [List.mem_cons, List.not_mem_nil, or_false] at h
    rcases h with h | h <;> subst h <;> rfl
  · obtain ⟨p, _, hp⟩ := List.mem_map.mp h
    subst hp
    rfl

theorem isTerminalStatus_finalStatusOf (inp : RunInputs) :
    isTerminalStatus (finalStatusOf inp) = true := by
  rw [finalStatusOf]
  split <;> rfl

/-- Every run's trace ends with the terminal persistence write immediately
followed by the terminal completion event, every earlier action is
non-terminal, and a failing run ends failed (progress 0, raw message in the
event) while a successful run ends with the final status at 100. -/
theorem trace_decomposition (inp : RunInputs) :
    ∃ (pre : List TraceAction) (s : String) (p : ℚ) (q : Option ℚ) (ss e : Option String),
      processVideoAsync inp = pre ++ [.persist (some s) p, .emitComplete s q ss e] ∧
      isTerminalStatus s = true ∧
      (∀ a ∈ pre, isTerminalAction a = false) ∧
      (inp.failAt ≠ none → s = failedS ∧ p = 0 ∧ e = some inp.errMsg) ∧
      (inp.failAt = none → s = finalStatusOf inp ∧ p = 100 ∧ e = none) := by
  have hE : ∀ (p : ℚ) (st : String) (cf tf : Option ℕ) (fr : Option FrameResult),
      ∀ a ∈ ([.emitProgress p st cf tf fr] : List TraceAction), isTerminalAction a = false := by
    intro p st cf tf fr a ha
    simp only [List.mem_singleton] at ha
    subst ha
    rfl
  have hE2 : ∀ (p : ℚ) (st : String) (p2 : ℚ),
      ∀ a ∈ ([.emitProgress p st none none none, .persist none p2] : List TraceAction),
        isTerminalAction a = false := by
    intro p st p2 a ha
    simp only [List.mem_cons, List.not_mem_nil, or_false] at ha
    rcases ha with h | h <;> subst h <;> rfl
  have happend : ∀ (l₁ l₂ : List TraceAction),
      (∀ a ∈ l₁, isTerminalAction a = false) → (∀ a ∈ l₂, isTerminalAction a = false) →
      ∀ a ∈ l₁ ++ l₂, isTerminalAction a = false := by
    intro l₁ l₂ h1 h2 a ha
    rcases List.mem_append.mp ha with h | h
    · exact h1 a h
    · exact h2 a h
  rcases hfa : inp.failAt with _ | fp
  · refine ⟨preAnalyzing ++ analysisActions inp ++ compressingActions inp ++
      [.emitProgress 95 finalizingS none none none, .persist none 95],
      finalStatusOf inp, 100, some 100, some (verdictOf inp).status, none, ?_, ?_, ?_, ?_, ?_⟩
    · simp [processVideoAsync, hfa, successTail, List.append_assoc]
    · exact isTerminalStatus_finalStatusOf inp
    · refine happend _ _ (happend _ _ (happend _ _ nonterminal_preAnalyzing
        (nonterminal_analysisActions inp)) (nonterminal_compressingActions inp)) ?_
      intro a ha
      simp only [List.mem_cons, List.not_mem_nil, or_false] at ha
      rcases ha with h | h <;> subst h <;> rfl
    · intro h; exact absurd rfl h
    · intro _; exact ⟨rfl, rfl, rfl⟩
  · cases fp
    case persistStart =>
      refine ⟨[.emitProgress 10 processingS none none none], failedS, 0, none, none,
        some inp.errMsg, ?_, rfl, hE 10 processingS none none none, fun _ => ⟨rfl, rfl, rfl⟩,
        fun h => absurd h (by simp)⟩
      simp [processVideoAsync, hfa, failTail]
    case persistAnalyzing =>
      refine ⟨[.emitProgress 10 processingS none none none, .persist (some processingS) 10,
        .emitProgress 30 analyzingS none none none], failedS, 0, none, none,
        some inp.errMsg, ?_, rfl, ?_, fun _ => ⟨rfl, rfl, rfl⟩,
        fun h => absurd h (by simp)⟩
      · simp [processVideoAsync, hfa, failTail]
      · intro a ha
        simp only [List.mem_cons, List.not_mem_nil, or_false] at ha
        rcases ha with h | h | h <;> subst h <;> rfl
    case analysisCall =>
      refine ⟨preAnalyzing, failedS, 0, none, none, some inp.errMsg, ?_, rfl,
        nonterminal_preAnalyzing, fun _ => ⟨rfl, rfl, rfl⟩,
        fun h => absurd h (by simp)⟩
      simp [processVideoAsync, hfa, failTail]
    case persistCompressing =>
      refine ⟨preAnalyzing ++ analysisActions inp ++ [.emitProgress 50 compressingS none none none],
        failedS, 0, none, none, some inp.errMsg, ?_, rfl, ?_, fun _ => ⟨rfl, rfl, rfl⟩,
        fun h => absurd h (by simp)⟩
      · simp [processVideoAsync, hfa, failTail, List.append_assoc]
      · exact happend _ _ (happend _ _ nonterminal_preAnalyzing (nonterminal_analysisActions inp))
          (hE 50 compressingS none none none)
    case transcode =>
      refine ⟨preAnalyzing ++ analysisActions inp ++ compressingActions inp,
        failedS, 0, none, none, some inp.errMsg, ?_, rfl, ?_, fun _ => ⟨rfl, rfl, rfl⟩,
        fun h => absurd h (by simp)⟩
      · simp [processVideoAsync, hfa, failTail, List.append_assoc]
      · exact happend _ _ (happend _ _ nonterminal_preAnalyzing (nonterminal_analysisActions inp))
          (nonterminal_compressingActions inp)
    case persistFinalizing =>
      refine ⟨preAnalyzing ++ analysisActions inp ++ compressingActions inp ++
        [.emitProgress 95 finalizingS none none none],
        failedS, 0, none, none, some inp.errMsg, ?_, rfl, ?_, fun _ => ⟨rfl, rfl, rfl⟩,
        fun h => absurd h (by simp)⟩
      · simp [processVideoAsync, hfa, failTail, List.append_assoc]
      · exact happend _ _ (happend _ _ (happend _ _ nonterminal_preAnalyzing
          (nonterminal_analysisActions inp)) (nonterminal_compressingActions inp))
          (hE 95 finalizingS none none none)
    case persistTerminal =>
      refine ⟨preAnalyzing ++ analysisActions inp ++ compressingActions inp ++
        [.emitProgress 95 finalizingS none none none, .persist none 95],
        failedS, 0, none, none, some inp.errMsg, ?_, rfl, ?_, fun _ => ⟨rfl, rfl, rfl⟩,
        fun h => absurd h (by simp)⟩
      · simp [processVideoAsync, hfa, failTail, List.append_assoc]
      · exact happend _ _ (happend _ _ (happend _ _ nonterminal_preAnalyzing
          (nonterminal_analysisActions inp)) (nonterminal_compressingActions inp))
          (hE2 95 finalizingS 95)

/-! ## Claim C3 -/

/-- Claim C3: every run of the orchestrator — under every combination of
stage outcomes and every rejecting awaited step — ends with exactly one
terminal stage: the trace is a prefix of non-terminal actions followed by
exactly the terminal persistence write and the terminal completion event,
and when any step rejects the terminal stage is failed. -/
theorem C3_terminal_exactly_once :
    ∀ inp : RunInputs,
      ∃ (pre : List TraceAction) (s : String) (p : ℚ) (q : Option ℚ) (ss e : Option String),
        processVideoAsync inp = pre ++ [.persist (some s) p, .emitComplete s q ss e] ∧
        isTerminalStatus s = true ∧
        (∀ a ∈ pre, isTerminalAction a = false) ∧
        (inp.failAt ≠ none → s = failedS ∧ p = 0 ∧ e = some inp.errMsg) ∧
        (inp.failAt = none → s = finalStatusOf inp ∧ p = 100 ∧ e = none) :=
  trace_decomposition

/-- Witness for C3: the failing transcode run ends with the failed
persistence write and the failed terminal event carrying its message. -/
theorem C3_terminal_exactly_once_witness :
    ∃ (pre : List TraceAction) (s : String) (p : ℚ) (q : Option ℚ) (ss e : Option String),
      processVideoAsync inpC3W = pre ++ [.persist (some s) p, .emitComplete s q ss e] ∧
      isTerminalStatus s = true ∧
      (∀ a ∈ pre, isTerminalAction a = false) ∧
      s = failedS ∧ p = 0 ∧ e = some inpC3W.errMsg := by
  obtain ⟨pre, s, p, q, ss, e, h1, h2, h3, h4, _⟩ := C3_terminal_exactly_once inpC3W
  obtain ⟨hs, hp, he⟩ := h4 (by simp [inpC3W])
  exact ⟨pre, s, p, q, ss, e, h1, h2, h3, hs, hp, he⟩

/-! ## Helper lemmas: adjacency of emissions and writes -/

theorem emitPersistAdj_of_emit (a : TraceAction) (p : ℚ) (st : String) (cf tf : Option ℕ)
    (fr : Option FrameResult) : emitPersistAdj a (.emitProgress p st cf tf fr) := by
  intro os q hb _
  exact absurd hb (by simp)

theorem emitPersistAdj_of_terminal (a b : TraceAction) (h : isTerminalAction b = true) :
    emitPersistAdj a b := by
  intro os q hb hnt
  rw [hnt] at h
  exact absurd h (by simp)

theorem emitPersistAdj_pair (p : ℚ) (st : String) (cf tf : Option ℕ) (fr : Option FrameResult)
    (os : Option String) :
    emitPersistAdj (.emitProgress p st cf tf fr) (.persist os p) := by
  intro os' q hb _
  injection hb with h1 h2
  subst h2
  exact ⟨st, cf, tf, fr, rfl⟩

theorem chain'_of_mem_right {α : Type} {R : α → α → Prop} :
    ∀ l : List α, (∀ y ∈ l, ∀ x, R x y) → List.Chain' R l := by
  intro l
  induction l with
  | nil => intro _; simp
  | cons a t ih =>
    intro h
    rw [List.chain'_cons']
    exact ⟨fun y hy => h y (List.mem_cons_of_mem a (List.mem_of_mem_head? hy)) a,
      ih (fun y hy x => h y (List.mem_cons_of_mem a hy) x)⟩

theorem chain'_append_headSafe {α : Type} {R : α → α → Prop} {l₁ l₂ : List α}
    (h₁ : List.Chain' R l₁) (h₂ : List.Chain' R l₂)
    (hh : ∀ y ∈ l₂.head?, ∀ x, R x y) : List.Chain' R (l₁ ++ l₂) := by
  rw [List.chain'_append]
  exact ⟨h₁, h₂, fun x hx y hy => hh y hy x⟩

theorem chain_preAnalyzing : List.Chain' emitPersistAdj preAnalyzing := by
  rw [preAnalyzing]
  exact List.chain'_cons.mpr ⟨emitPersistAdj_pair 10 processingS none none none (some processingS),
    List.chain'_cons.mpr ⟨emitPersistAdj_of_emit _ 30 analyzingS none none none,
      List.chain'_cons.mpr ⟨emitPersistAdj_pair 30 analyzingS none none none (some analyzingS),
        List.chain'_singleton _⟩⟩⟩

theorem head_flatMap_mapCall (calls : List ProgressCall) :
    ∀ y ∈ (calls.flatMap mapCall).head?,
      ∃ (p : ℚ) (st : String) (cf tf : Option ℕ) (fr : Option FrameResult),
        y = TraceAction.emitProgress p st cf tf fr := by
  cases calls with
  | nil => simp
  | cons c cs =>
    intro y hy
    rw [List.flatMap_cons] at hy
    simp only [mapCall, List.cons_append, List.head?_cons, Option.mem_def,
      Option.some.injEq] at hy
    subst hy
    exact ⟨_, _, _, _, _, rfl⟩

theorem chain_flatMap_mapCall (calls : List ProgressCall) :
    List.Chain' emitPersistAdj (calls.flatMap mapCall) := by
  induction calls with
  | nil => simp
  | cons c cs ih =>
    rw [List.flatMap_cons]
    refine chain'_append_headSafe ?_ ih ?_
    · exact List.chain'_cons.mpr
        ⟨emitPersistAdj_pair _ _ _ _ _ _, List.chain'_singleton _⟩
    · intro y hy x
      obtain ⟨p, st, cf, tf, fr, hy'⟩ := head_flatMap_mapCall cs y hy
      subst hy'
      exact emitPersistAdj_of_emit x p st cf tf fr

theorem chain_analysisActions (inp : RunInputs) :
    List.Chain' emitPersistAdj (analysisActions inp) :=
  chain_flatMap_mapCall _

theorem analysisActions_headSafe (inp : RunInputs) :
    ∀ y ∈ (analysisActions inp).head?, ∀ x, emitPersistAdj x y := by
  intro y hy x
  obtain ⟨p, st, cf, tf, fr, hy'⟩ := head_flatMap_mapCall _ y hy
  subst hy'
  exact emitPersistAdj_of_emit x p st cf tf fr

theorem chain_transcodeEmits (ps : List ℚ) : List.Chain' emitPersistAdj (transcodeEmits ps) := by
  apply chain'_of_mem_right
  intro y hy x
  obtain ⟨p, _, hp⟩ := List.mem_map.mp hy
  subst hp
  exact emitPersistAdj_of_emit x _ _ _ _ _

theorem chain_compressingActions (inp : RunInputs) :
    List.Chain' emitPersistAdj (compressingActions inp) := by
  rw [compressingActions]
  refine chain'_append_headSafe ?_ (chain_transcodeEmits _) ?_
  · exact List.chain'_cons.mpr
      ⟨emitPersistAdj_pair 50 compressingS none none none none, List.chain'_singleton _⟩
  · intro y hy x
    have hm := List.mem_of_mem_head? hy
    obtain ⟨p, _, hp⟩ := List.mem_map.mp hm
    subst hp
    exact emitPersistAdj_of_emit x _ _ _ _ _

theorem compressingActions_headSafe (inp : RunInputs) :
    ∀ y ∈ (compressingActions inp).head?, ∀ x, emitPersistAdj x y := by
  intro y hy x
  rw [compressingActions] at hy
  simp only [List.cons_append, List.head?_cons, Option.mem_def, Option.some.injEq] at hy
  subst hy
  exact emitPersistAdj_of_emit x 50 compressingS none none none

theorem chain_failTail (msg : String) : List.Chain' emitPersistAdj (failTail msg) :=
  List.chain'_cons.mpr ⟨emitPersistAdj_of_terminal _ _ rfl, List.chain'_singleton _⟩

theorem failTail_headSafe (msg : String) :
    ∀ y ∈ (failTail msg).head?, ∀ x, emitPersistAdj x y := by
  intro y hy x
  simp only [failTail, List.head?_cons, Option.mem_def, Option.some.injEq] at hy
  subst hy
  exact emitPersistAdj_of_terminal _ _ rfl

theorem chain_successTail (inp : RunInputs) : List.Chain' emitPersistAdj (successTail inp) :=
  List.chain'_cons.mpr ⟨emitPersistAdj_of_terminal _ _ rfl, List.chain'_singleton _⟩

theorem successTail_headSafe (inp : RunInputs) :
    ∀ y ∈ (successTail inp).head?, ∀ x, emitPersistAdj x y := by
  intro y hy x
  simp only [successTail, List.head?_cons, Option.mem_def, Option.some.injEq] at hy
  subst hy
  exact emitPersistAdj_of_terminal _ _ (isTerminalStatus_finalStatusOf inp)

theorem cons_emit_headSafe (p : ℚ) (st : String) (cf tf : Option ℕ) (fr : Option FrameResult)
    (t : List TraceAction) :
    ∀ y ∈ ((TraceAction.emitProgress p st cf tf fr) :: t).head?, ∀ x, emitPersistAdj x y := by
  intro y hy x
  simp only [List.head?_cons, Option.mem_def, Option.some.injEq] at hy
  subst hy
  exact emitPersistAdj_of_emit x p st cf tf fr

/-! ## Claim C1 -/

/-- Counterexample for C1 as stated: in the run with no backend, no
transcode progress and no failure, the full trace shows each progress
emission happening strictly before the persistence write of the same
progress value — in particular the first action of every trace is the
emission of progress 10, which no persistence write precedes. -/
theorem C1_counterexample :
    processVideoAsync inpC1 =
      [.emitProgress 10 processingS none none none,
       .persist (some processingS) 10,
       .emitProgress 30 analyzingS none none none,
       .persist (some analyzingS) 30,
       .emitProgress 50 noApiStatusMsg none none none,
       .persist (some analyzingS) 50,
       .emitProgress 50 compressingS none none none,
       .persist none 50,
       .emitProgress 95 finalizingS none none none,
       .persist none 95,
       .persist (some flaggedS) 100,
       .emitComplete flaggedS (some 100) (some flaggedS) none] ∧
    (processVideoAsync inpC1).head? = some (.emitProgress 10 processingS none none none) := by
  have htr : processVideoAsync inpC1 =
      preAnalyzing ++ analysisActions inpC1 ++ compressingActions inpC1 ++
      [.emitProgress 95 finalizingS none none none, .persist none 95] ++ successTail inpC1 := by
    simp [processVideoAsync, inpC1]
  have haa : analysisActions inpC1 =
      [.emitProgress 50 noApiStatusMsg none none none, .persist (some analyzingS) 50] := by
    simp only [analysisActions, analysisCalls, inpC1, Bool.not_false, if_true, List.flatMap_cons,
      List.flatMap_nil, List.append_nil, mapCall]
    norm_num
  have hca : compressingActions inpC1 =
      [.emitProgress 50 compressingS none none none, .persist none 50] := by
    simp [compressingActions, inpC1, transcodeEmits]
  have hv : verdictOf inpC1 = ⟨flaggedS, 1/2, [noApiMsg], none⟩ := by
    rw [verdictOf]
    exact analyzeVideoSensitivity_none_backend _ _ _ _
  have hfs : finalStatusOf inpC1 = flaggedS := by
    rw [finalStatusOf, hv]
    rfl
  have hst : successTail inpC1 =
      [.persist (some flaggedS) 100, .emitComplete flaggedS (some 100) (some flaggedS) none] := by
    rw [successTail, hfs, hv]
  rw [htr, haa, hca, hst]
  constructor
  · rfl
  · rfl

/-- Claim C1 amended: the orchestrator emits each non-terminal ProgressEvent
BEFORE persisting the corresponding {stage, progress} update (notify
happens-before write, the reverse of the claim): every trace starts with the
progress-10 emission, every non-terminal persistence write is immediately
preceded by the emission carrying the same progress value, and only the
terminal transition is persisted before its event is emitted. -/
theorem C1_emit_precedes_persist :
    ∀ inp : RunInputs,
      (processVideoAsync inp).head? = some (.emitProgress 10 processingS none none none) ∧
      List.Chain' emitPersistAdj (processVideoAsync inp) ∧
      (∃ (pre : List TraceAction) (s : String) (p : ℚ) (q : Option ℚ) (ss e : Option String),
        processVideoAsync inp = pre ++ [.persist (some s) p, .emitComplete s q ss e] ∧
        isTerminalStatus s = true) := by
  intro inp
  have hterm : ∃ (pre : List TraceAction) (s : String) (p : ℚ) (q : Option ℚ) (ss e : Option String),
      processVideoAsync inp = pre ++ [.persist (some s) p, .emitComplete s q ss e] ∧
      isTerminalStatus s = true := by
    obtain ⟨pre, s, p, q, ss, e, h1, h2, _⟩ := trace_decomposition inp
    exact ⟨pre, s, p, q, ss, e, h1, h2⟩
  have h95 : List.Chain' emitPersistAdj
      [TraceAction.emitProgress 95 finalizingS none none none, .persist none 95] :=
    List.chain'_cons.mpr
      ⟨emitPersistAdj_pair 95 finalizingS none none none none, List.chain'_singleton _⟩
  rcases hfa : inp.failAt with _ | fp
  · have htr : processVideoAsync inp =
        preAnalyzing ++ analysisActions inp ++ compressingActions inp ++
        [.emitProgress 95 finalizingS none none none, .persist none 95] ++ successTail inp := by
      simp [processVideoAsync, hfa]
    refine ⟨?_, ?_, hterm⟩
    · rw [htr]; rfl
    · rw [htr]
      exact chain'_append_headSafe
        (chain'_append_headSafe
          (chain'_append_headSafe
            (chain'_append_headSafe chain_preAnalyzing (chain_analysisActions inp)
              (analysisActions_headSafe inp))
            (chain_compressingActions inp) (compressingActions_headSafe inp))
          h95 (cons_emit_headSafe 95 finalizingS none none none _))
        (chain_successTail inp) (successTail_headSafe inp)
  · cases fp
    case persistStart =>
      have htr : processVideoAsync inp =
          [.emitProgress 10 processingS none none none] ++ failTail inp.errMsg := by
        simp [processVideoAsync, hfa]
      refine ⟨by rw [htr]; rfl, ?_, hterm⟩
      rw [htr]
      exact chain'_append_headSafe (List.chain'_singleton _) (chain_failTail _)
        (failTail_headSafe _)
    case persistAnalyzing =>
      have htr : processVideoAsync inp =
          [.emitProgress 10 processingS none none none, .persist (some processingS) 10,
           .emitProgress 30 analyzingS none none none] ++ failTail inp.errMsg := by
        simp [processVideoAsync, hfa]
      refine ⟨by rw [htr]; rfl, ?_, hterm⟩
      rw [htr]
      refine chain'_append_headSafe ?_ (chain_failTail _) (failTail_headSafe _)
      exact List.chain'_cons.mpr ⟨emitPersistAdj_pair 10 processingS none none none _,
        List.chain'_cons.mpr ⟨emitPersistAdj_of_emit _ 30 analyzingS none none none,
          List.chain'_singleton _⟩⟩
    case analysisCall =>
      have htr : processVideoAsync inp = preAnalyzing ++ failTail inp.errMsg := by
        simp [processVideoAsync, hfa]
      refine ⟨by rw [htr]; rfl, ?_, hterm⟩
      rw [htr]
      exact chain'_append_headSafe chain_preAnalyzing (chain_failTail _) (failTail_headSafe _)
    case persistCompressing =>
      have htr : processVideoAsync inp =
          preAnalyzing ++ analysisActions inp ++
          [.emitProgress 50 compressingS none none none] ++ failTail inp.errMsg := by
        simp [processVideoAsync, hfa]
      refine ⟨by rw [htr]; rfl, ?_, hterm⟩
      rw [htr]
      exact chain'_append_headSafe
        (chain'_append_headSafe
          (chain'_append_headSafe chain_preAnalyzing (chain_analysisActions inp)
            (analysisActions_headSafe inp))
          (List.chain'_singleton _) (cons_emit_headSafe 50 compressingS none none none _))
        (chain_failTail _) (failTail_headSafe _)
    case transcode =>
      have htr : processVideoAsync inp =
          preAnalyzing ++ analysisActions inp ++ compressingActions inp ++
          failTail inp.errMsg := by
        simp [processVideoAsync, hfa]
      refine ⟨by rw [htr]; rfl, ?_, hterm⟩
      rw [htr]
      exact chain'_append_headSafe
        (chain'_append_headSafe
          (chain'_append_headSafe chain_preAnalyzing (chain_analysisActions inp)
            (analysisActions_headSafe inp))
          (chain_compressingActions inp) (compressingActions_headSafe inp))
        (chain_failTail _) (failTail_headSafe _)
    case persistFinalizing =>
      have htr : processVideoAsync inp =
          preAnalyzing ++ analysisActions inp ++ compressingActions inp ++
          [.emitProgress 95 finalizingS none none none] ++ failTail inp.errMsg := by
        simp [processVideoAsync, hfa]
      refine ⟨by rw [htr]; rfl, ?_, hterm⟩
      rw [htr]
      exact chain'_append_headSafe
        (chain'_append_headSafe
          (chain'_append_headSafe
            (chain'_append_headSafe chain_preAnalyzing (chain_analysisActions inp)
              (analysisActions_headSafe inp))
            (chain_compressingActions inp) (compressingActions_headSafe inp))
          (List.chain'_singleton _) (cons_emit_headSafe 95 finalizingS none none none _))
        (chain_failTail _) (failTail_headSafe _)
    case persistTerminal =>
      have htr : processVideoAsync inp =
          preAnalyzing ++ analysisActions inp ++ compressingActions inp ++
          [.emitProgress 95 finalizingS none none none, .persist none 95] ++
          failTail inp.errMsg := by
        simp [processVideoAsync, hfa]
      refine ⟨by rw [htr]; rfl, ?_, hterm⟩
      rw [htr]
      exact chain'_append_headSafe
        (chain'_append_headSafe
          (chain'_append_headSafe
            (chain'_append_headSafe chain_preAnalyzing (chain_analysisActions inp)
              (analysisActions_headSafe inp))
            (chain_compressingActions inp) (compressingActions_headSafe inp))
          h95 (cons_emit_headSafe 95 finalizingS none none none _))
        (chain_failTail _) (failTail_headSafe _)

/-! ## Helper lemmas: error payloads of trace actions -/

theorem errorOf_preAnalyzing : ∀ a ∈ preAnalyzing, errorOf a = none := by
  intro a ha
  simp only [preAnalyzing, List.mem_cons, List.not_mem_nil, or_false] at ha
  rcases ha with h | h | h | h <;> subst h <;> rfl

theorem errorOf_analysisActions {inp : RunInputs} {a : TraceAction}
    (h : a ∈ analysisActions inp) {e : String} (he : errorOf a = some e) :
    ∃ (p : ℚ) (st : String) (cf tf : Option ℕ) (fr : FrameResult),
      a = .emitProgress p st cf tf (some fr) ∧ fr.error = some e := by
  obtain ⟨c, _, hc | hc⟩ := mem_analysisActions h
  · subst hc
    simp only [errorOf] at he
    cases hfr : c.frameResult with
    | none => rw [hfr] at he; exact absurd he (by simp)
    | some fr =>
      rw [hfr] at he
      simp only [Option.some_bind] at he
      exact ⟨30 + c.progress / 5, c.status, c.currentFrame, c.totalFrames, fr, by simp [hfr], he⟩
  · subst hc
    exact absurd he (by simp [errorOf])

theorem errorOf_transcodeEmits {ps : List ℚ} {a : TraceAction}
    (h : a ∈ transcodeEmits ps) : errorOf a = none := by
  obtain ⟨p, _, hp⟩ := List.mem_map.mp h
  subst hp
  rfl

theorem errorOf_compressingActions {inp : RunInputs} {a : TraceAction}
    (h : a ∈ compressingActions inp) : errorOf a = none := by
  rw [compressingActions] at h
  rcases List.mem_append.mp h with h | h
  · simp only [List.mem_cons, List.not_mem_nil, or_false] at h
    rcases h with h | h <;> subst h <;> rfl
  · exact errorOf_transcodeEmits h

theorem errorOf_successTail {inp : RunInputs} {a : TraceAction}
    (h : a ∈ successTail inp) : errorOf a = none := by
  simp only [successTail, List.mem_cons, List.not_mem_nil, or_false] at h
  rcases h with h | h <;> subst h <;> rfl

theorem errorOf_failTail {msg : String} {a : TraceAction} (h : a ∈ failTail msg) :
    errorOf a = none ∨ a = .emitComplete failedS none none (some msg) := by
  simp only [failTail, List.mem_cons, List.not_mem_nil, or_false] at h
  rcases h with h | h
  · left; subst h; rfl
  · right; exact h

/-! ## Claim C9 -/

/-- Counterexample for C9 as stated: the failing transcode run's terminal
event carries the raw exception message in its error field, delivered to
every subscribed observer. -/
theorem C9_counterexample :
    (processVideoAsync inpC9).getLast? =
      some (.emitComplete failedS none none (some boomMsg)) ∧
    errorOf (.emitComplete failedS none none (some boomMsg)) = some boomMsg := by
  have htr : processVideoAsync inpC9 =
      preAnalyzing ++ analysisActions inpC9 ++ compressingActions inpC9 ++
      failTail inpC9.errMsg := by
    simp [processVideoAsync, inpC9]
  rw [htr]
  constructor
  · rw [List.getLast?_append]
    rfl
  · rfl

/-- Claim C9 amended: raw exception messages DO reach end-user observers in
exactly two forms — the terminal event of a failed run carries the raw
message of the exception in its error field, and progress events embedding
an error frame record carry that frame's raw error cause; every other
emitted event carries no error text. -/
theorem C9_raw_error_exposure :
    ∀ (inp : RunInputs) (a : TraceAction), a ∈ processVideoAsync inp →
      ∀ e : String, errorOf a = some e →
      (a = .emitComplete failedS none none (some inp.errMsg) ∧ e = inp.errMsg ∧
        inp.failAt ≠ none) ∨
      (∃ (p : ℚ) (st : String) (cf tf : Option ℕ) (fr : FrameResult),
        a = .emitProgress p st cf tf (some fr) ∧ fr.error = some e) := by
  intro inp a ha e he
  have hFail : inp.failAt ≠ none → a ∈ failTail inp.errMsg →
      (a = .emitComplete failedS none none (some inp.errMsg) ∧ e = inp.errMsg ∧
        inp.failAt ≠ none) ∨
      (∃ (p : ℚ) (st : String) (cf tf : Option ℕ) (fr : FrameResult),
        a = .emitProgress p st cf tf (some fr) ∧ fr.error = some e) := by
    intro hne hT
    rcases errorOf_failTail hT with h | h
    · rw [h] at he; exact absurd he (by simp)
    · left
      subst h
      simp only [errorOf, Option.some.injEq] at he
      exact ⟨rfl, he.symm, hne⟩
  have hPre : a ∈ preAnalyzing → False := by
    intro hp
    rw [errorOf_preAnalyzing a hp] at he
    exact absurd he (by simp)
  have hCa : a ∈ compressingActions inp → False := by
    intro hp
    rw [errorOf_compressingActions hp] at he
    exact absurd he (by simp)
  have hAa : a ∈ analysisActions inp →
      (a = .emitComplete failedS none none (some inp.errMsg) ∧ e = inp.errMsg ∧
        inp.failAt ≠ none) ∨
      (∃ (p : ℚ) (st : String) (cf tf : Option ℕ) (fr : FrameResult),
        a = .emitProgress p st cf tf (some fr) ∧ fr.error = some e) :=
    fun hp => Or.inr (errorOf_analysisActions hp he)
  have h95 : ∀ (p2 : ℚ) (st : String),
      a ∈ ([.emitProgress p2 st none none none] : List TraceAction) → False := by
    intro p2 st hp
    simp only [List.mem_singleton] at hp
    subst hp
    exact absurd he (by simp [errorOf])
  have h952 : a ∈ ([.emitProgress 95 finalizingS none none none,
      .persist none 95] : List TraceAction) → False := by
    intro hp
    simp only [List.mem_cons, List.not_mem_nil, or_false] at hp
    rcases hp with h | h <;> subst h <;> exact absurd he (by simp [errorOf])
  rcases hfa : inp.failAt with _ | fp
  · have htr : processVideoAsync inp =
        preAnalyzing ++ analysisActions inp ++ compressingActions inp ++
        [.emitProgress 95 finalizingS none none none, .persist none 95] ++ successTail inp := by
      simp [processVideoAsync, hfa]
    rw [htr] at ha
    nth_rewrite 1 [← hfa]
    rcases List.mem_append.mp ha with h4 | hT
    · rcases List.mem_append.mp h4 with h3 | h95m
      · rcases List.mem_append.mp h3 with h2 | hca
        · rcases List.mem_append.mp h2 with hpa | haa
          · exact absurd hpa (fun h => hPre h)
          · exact hAa haa
        · exact absurd hca (fun h => hCa h)
      · exact absurd h95m (fun h => h952 h)
    · rw [errorOf_successTail hT] at he
      exact absurd he (by simp)
  · have hne : inp.failAt ≠ none := by rw [hfa]; simp
    cases fp
    case persistStart =>
      have htr : processVideoAsync inp =
          [.emitProgress 10 processingS none none none] ++ failTail inp.errMsg := by
        simp [processVideoAsync, hfa]
      rw [htr] at ha
      rw [← hfa]
      rcases List.mem_append.mp ha with h | hT
      · exact absurd h (fun h => h95 10 processingS h)
      · exact hFail hne hT
    case persistAnalyzing =>
      have htr : processVideoAsync inp =
          [.emitProgress 10 processingS none none none, .persist (some processingS) 10,
           .emitProgress 30 analyzingS none none none] ++ failTail inp.errMsg := by
        simp [processVideoAsync, hfa]
      rw [htr] at ha
      rw [← hfa]
      rcases List.mem_append.mp ha with h | hT
      · simp only [List.mem_cons, List.not_mem_nil, or_false] at h
        rcases h with h | h | h <;> subst h <;> exact absurd he (by simp [errorOf])
      · exact hFail hne hT
    case analysisCall =>
      have htr : processVideoAsync inp = preAnalyzing ++ failTail inp.errMsg := by
        simp [processVideoAsync, hfa]
      rw [htr] at ha
      rw [← hfa]
      rcases List.mem_append.mp ha with h | hT
      · exact absurd h (fun h => hPre h)
      · exact hFail hne hT
    case persistCompressing =>
      have htr : processVideoAsync inp =
          preAnalyzing ++ analysisActions inp ++
          [.emitProgress 50 compressingS none none none] ++ failTail inp.errMsg := by
        simp [processVideoAsync, hfa]
      rw [htr] at ha
      rw [← hfa]
      rcases List.mem_append.mp ha with h3 | hT
      · rcases List.mem_append.mp h3 with h2 | h50
        · rcases List.mem_append.mp h2 with hpa | haa
          · exact absurd hpa (fun h => hPre h)
          · exact hAa haa
        · exact absurd h50 (fun h => h95 50 compressingS h)
      · exact hFail hne hT
    case transcode =>
      have htr : processVideoAsync inp =
          preAnalyzing ++ analysisActions inp ++ compressingActions inp ++
          failTail inp.errMsg := by
        simp [processVideoAsync, hfa]
      rw [htr] at ha
      rw [← hfa]
      rcases List.mem_append.mp ha with h3 | hT
      · rcases List.mem_append.mp h3 with h2 | hca
        · rcases List.mem_append.mp h2 with hpa | haa
          · exact absurd hpa (fun h => hPre h)
          · exact hAa haa
        · exact absurd hca (fun h => hCa h)
      · exact hFail hne hT
    case persistFinalizing =>
      have htr : processVideoAsync inp =
          preAnalyzing ++ analysisActions inp ++ compressingActions inp ++
          [.emitProgress 95 finalizingS none none none] ++ failTail inp.errMsg := by
        simp [processVideoAsync, hfa]
      rw [htr] at ha
      rw [← hfa]
      rcases List.mem_append.mp ha with h4 | hT
      · rcases List.mem_append.mp h4 with h3 | h95m
        · rcases List.mem_append.mp h3 with h2 | hca
          · rcases List.mem_append.mp h2 with hpa | haa
            · exact absurd hpa (fun h => hPre h)
            · exact hAa haa
          · exact absurd hca (fun h => hCa h)
        · exact absurd h95m (fun h => h95 95 finalizingS h)
      · exact hFail hne hT
    case persistTerminal =>
      have htr : processVideoAsync inp =
          preAnalyzing ++ analysisActions inp ++ compressingActions inp ++
          [.emitProgress 95 finalizingS none none none, .persist none 95] ++
          failTail inp.errMsg := by
        simp [processVideoAsync, hfa]
      rw [htr] at ha
      rw [← hfa]
      rcases List.mem_append.mp ha with h4 | hT
      · rcases List.mem_append.mp h4 with h3 | h95m
        · rcases List.mem_append.mp h3 with h2 | hca
          · rcases List.mem_append.mp h2 with hpa | haa
            · exact absurd hpa (fun h => hPre h)
            · exact hAa haa
          · exact absurd hca (fun h => hCa h)
        · exact absurd h95m (fun h => h952 h)
      · exact hFail hne hT

/-- Witness for C9: the failing finalizing-persist run contains the failed
terminal event carrying its raw message, and the theorem classifies it. -/
theorem C9_raw_error_exposure_witness :
    ((.emitComplete failedS none none (some boomMsg) : TraceAction) =
        .emitComplete failedS none none (some inpC9W.errMsg) ∧
      boomMsg = inpC9W.errMsg ∧ inpC9W.failAt ≠ none) ∨
    (∃ (p : ℚ) (st : String) (cf tf : Option ℕ) (fr : FrameResult),
      (.emitComplete failedS none none (some boomMsg) : TraceAction) =
        .emitProgress p st cf tf (some fr) ∧ fr.error = some boomMsg) := by
  have hmem : (.emitComplete failedS none none (some boomMsg) : TraceAction) ∈
      processVideoAsync inpC9W := by
    have htr : processVideoAsync inpC9W =
        preAnalyzing ++ analysisActions inpC9W ++ compressingActions inpC9W ++
        [.emitProgress 95 finalizingS none none none] ++ failTail inpC9W.errMsg := by
      simp [processVideoAsync, inpC9W]
    rw [htr]
    apply List.mem_append_right
    simp [failTail, inpC9W]
  exact C9_raw_error_exposure inpC9W (.emitComplete failedS none none (some boomMsg)) hmem
    boomMsg rfl

/-! ## Helper lemmas: progress values along a trace -/

theorem progressValues_append (l₁ l₂ : List TraceAction) :
    progressValues (l₁ ++ l₂) = progressValues l₁ ++ progressValues l₂ :=
  List.filterMap_append l₁ l₂ progressOf

theorem progressValues_preAnalyzing : progressValues preAnalyzing = [10, 10, 30, 30] := rfl

theorem progressValues_analysisActions (inp : RunInputs) :
    progressValues (analysisActions inp) =
      ((analysisCalls inp.backendAvailable inp.duration inp.extraction inp.classify).map
        (fun c => 30 + c.progress / 5)).flatMap (fun x => [x, x]) := by
  rw [analysisActions, progressValues, List.filterMap_flatMap, List.flatMap_map]
  simp only [mapCall, List.filterMap_cons, List.filterMap_nil, progressOf]

theorem progressValues_transcodeEmits (ps : List ℚ) :
    progressValues (transcodeEmits ps) = ps.map (fun p => 50 + min p 100 * (2/5)) := by
  induction ps with
  | nil => rfl
  | cons p t ih =>
    have h1 : transcodeEmits (p :: t) =
        TraceAction.emitProgress (50 + min p 100 * (2/5)) compressingS none none none ::
        transcodeEmits t := by
      rw [transcodeEmits, List.map_cons, transcodeEmits]
    rw [h1, progressValues, List.filterMap_cons]
    simp only [progressOf]
    rw [← progressValues, ih, List.map_cons]

theorem perFrameCalls_progress_mem (cl : ℕ → Except String FrameVerdict) (n : ℕ) :
    ∀ c ∈ perFrameCalls cl n, ∃ i, i < n ∧ c.progress = perFrameProgress i n := by
  intro c hc
  rw [perFrameCalls] at hc
  obtain ⟨i, hi, hci⟩ := List.mem_flatMap.mp hc
  rw [List.mem_range] at hi
  refine ⟨i, hi, ?_⟩
  rcases h : cl i with e | v <;> rw [h] at hci <;>
    simp only [List.mem_cons, List.not_mem_nil, or_false] at hci
  · subst hci; rfl
  · rcases hci with hci | hci <;> subst hci <;> rfl

theorem perFrameProgress_bounds (i n : ℕ) (h : i < n) :
    30 ≤ perFrameProgress i n ∧ perFrameProgress i n ≤ 50 := by
  have hn : (0 : ℚ) < n := by
    have : 0 < n := by omega
    exact_mod_cast this
  have h0 : (0 : ℚ) ≤ ((i : ℚ) + 1) / n := by positivity
  have h1 : ((i : ℚ) + 1) / n ≤ 1 := by
    rw [div_le_one hn]
    have : i + 1 ≤ n := h
    exact_mod_cast this
  rw [perFrameProgress]
  constructor <;> nlinarith

theorem perFrameProgress_mono (n : ℕ) :
    ∀ i j, i ≤ j → perFrameProgress i n ≤ perFrameProgress j n := by
  intro i j hij
  rcases Nat.eq_zero_or_pos n with h0 | hpos
  · subst h0
    simp [perFrameProgress]
  · have hn : (0 : ℚ) < n := by exact_mod_cast hpos
    have hd : ((i : ℚ) + 1) / n ≤ ((j : ℚ) + 1) / n := by
      gcongr
    rw [perFrameProgress, perFrameProgress]
    linarith

theorem chain'_le_of_all_eq (l : List ℚ) (c : ℚ) (h : ∀ x ∈ l, x = c) :
    List.Chain' (· ≤ ·) l := by
  induction l with
  | nil => simp
  | cons a t ih =>
    rw [List.chain'_cons']
    refine ⟨?_, ih (fun x hx => h x (List.mem_cons_of_mem a hx))⟩
    intro y hy
    rw [h a (List.mem_cons_self a t), h y (List.mem_cons_of_mem a (List.mem_of_mem_head? hy))]

theorem chain_le_flatMap_blocks (n : ℕ) (blk : ℕ → List ℚ) (v : ℕ → ℚ)
    (hblk : ∀ i, ∀ x ∈ blk i, x = v i) (hmono : ∀ i j, i ≤ j → v i ≤ v j) :
    List.Chain' (· ≤ ·) ((List.range n).flatMap blk) := by
  induction n with
  | zero => simp
  | succ m ih =>
    rw [List.range_succ, List.flatMap_append, List.chain'_append]
    refine ⟨ih, ?_, ?_⟩
    · simp only [List.flatMap_cons, List.flatMap_nil, List.append_nil]
      exact chain'_le_of_all_eq _ (v m) (hblk m)
    · intro x hx y hy
      obtain ⟨i, hi, hxi⟩ := List.mem_flatMap.mp (List.mem_of_mem_getLast? hx)
      rw [List.mem_range] at hi
      have hy' := List.mem_of_mem_head? hy
      simp only [List.flatMap_cons, List.flatMap_nil, List.append_nil] at hy'
      rw [hblk i x hxi, hblk m y hy']
      exact hmono i m (Nat.le_of_lt hi)

theorem chain_perFrameCalls_progress (cl : ℕ → Except String FrameVerdict) (n : ℕ) :
    List.Chain' (· ≤ ·) ((perFrameCalls cl n).map (fun c => c.progress)) := by
  rw [perFrameCalls, List.map_flatMap]
  apply chain_le_flatMap_blocks n _ (fun i => perFrameProgress i n)
  · intro i x hx
    obtain ⟨c, hc, hcx⟩ := List.mem_map.mp hx
    rcases h : cl i with e | v <;> rw [h] at hc <;>
      simp only [List.mem_cons, List.not_mem_nil, or_false] at hc
    · subst hc; rw [← hcx]
    · rcases hc with hc | hc <;> subst hc <;> rw [← hcx]
  · exact perFrameProgress_mono n

theorem extractionCalls_progress_shape (ext : Except String (List ℚ))
    (cl : ℕ → Except String FrameVerdict) :
    ∀ c ∈ extractionCalls ext cl,
      c.progress = 30 ∨ ∃ n i, i < n ∧ c.progress = perFrameProgress i n := by
  intro c hc
  cases ext with
  | error e => simp [extractionCalls] at hc
  | ok frames =>
    simp only [extractionCalls] at hc
    by_cases hf0 : frames.length = 0
    · rw [if_pos hf0] at hc; simp at hc
    · rw [if_neg hf0] at hc
      rcases List.mem_cons.mp hc with h | h
      · subst h; left; rfl
      · right
        obtain ⟨i, hi, hp⟩ := perFrameCalls_progress_mem cl frames.length c h
        exact ⟨frames.length, i, hi, hp⟩

theorem extractionCalls_progress_bounds (ext : Except String (List ℚ))
    (cl : ℕ → Except String FrameVerdict) :
    ∀ c ∈ extractionCalls ext cl, 30 ≤ c.progress ∧ c.progress ≤ 50 := by
  intro c hc
  rcases extractionCalls_progress_shape ext cl c hc with h | ⟨n, i, hi, hp⟩
  · rw [h]; norm_num
  · have hb := perFrameProgress_bounds i n hi
    rw [hp]
    exact ⟨hb.1, hb.2⟩

theorem analysisCalls_progress_bounds (b : Bool) (d : ℚ) (ext : Except String (List ℚ))
    (cl : ℕ → Except String FrameVerdict) :
    ∀ c ∈ analysisCalls b d ext cl, 10 ≤ c.progress ∧ c.progress ≤ 100 := by
  intro c hc
  rw [analysisCalls] at hc
  split_ifs at hc
  · simp only [List.mem_singleton] at hc; subst hc; norm_num
  · simp only [List.mem_singleton] at hc; subst hc; norm_num
  · rcases List.mem_cons.mp hc with h | h
    · subst h; norm_num
    · have hb := extractionCalls_progress_bounds ext cl c h
      constructor <;> linarith [hb.1, hb.2]

theorem extractionCalls_progress_chain (ext : Except String (List ℚ))
    (cl : ℕ → Except String FrameVerdict) :
    List.Chain' (· ≤ ·) ((extractionCalls ext cl).map (fun c => c.progress)) := by
  cases ext with
  | error e => simp [extractionCalls]
  | ok frames =>
    simp only [extractionCalls]
    by_cases hf0 : frames.length = 0
    · rw [if_pos hf0]; simp
    · rw [if_neg hf0]
      rw [List.map_cons, List.chain'_cons']
      constructor
      · intro y hy
        have hy2 := List.mem_of_mem_head? hy
        obtain ⟨c, hc, hcy⟩ := List.mem_map.mp hy2
        rw [← hcy]
        obtain ⟨i, hi, hp⟩ := perFrameCalls_progress_mem cl frames.length c hc
        have hb := perFrameProgress_bounds i frames.length hi
        rw [hp]
        exact hb.1
      · exact chain_perFrameCalls_progress cl frames.length

theorem analysisCalls_progress_chain (b : Bool) (d : ℚ) (ext : Except String (List ℚ))
    (cl : ℕ → Except String FrameVerdict) :
    List.Chain' (· ≤ ·) ((analysisCalls b d ext cl).map (fun c => c.progress)) := by
  rw [analysisCalls]
  split_ifs
  · simp
  · simp
  · rw [List.map_cons, List.chain'_cons']
    constructor
    · intro y hy
      have hy2 := List.mem_of_mem_head? hy
      obtain ⟨c, hc, hcy⟩ := List.mem_map.mp hy2
      rw [← hcy]
      have hb := extractionCalls_progress_bounds ext cl c hc
      show (10 : ℚ) ≤ c.progress
      linarith [hb.1]
    · exact extractionCalls_progress_chain ext cl

theorem chain_pairs (l : List ℚ) (h : List.Chain' (· ≤ ·) l) :
    List.Chain' (· ≤ ·) (l.flatMap (fun x => [x, x])) := by
  induction l with
  | nil => simp
  | cons a t ih =>
    rw [List.flatMap_cons]
    rcases List.chain'_cons'.mp h with ⟨hha, hct⟩
    rw [List.chain'_append]
    refine ⟨List.chain'_cons.mpr ⟨le_refl a, List.chain'_singleton a⟩, ih hct, ?_⟩
    intro x hx y hy
    simp only [List.getLast?_cons_cons, List.getLast?_singleton, Option.mem_def,
      Option.some.injEq] at hx
    subst hx
    cases t with
    | nil => simp at hy
    | cons b t2 =>
      rw [List.flatMap_cons] at hy
      simp only [List.cons_append, List.head?_cons, Option.mem_def, Option.some.injEq] at hy
      subst hy
      exact hha b (by simp)

theorem chain_le_map_mono (l : List ℚ) (f : ℚ → ℚ) (hf : ∀ a b : ℚ, a ≤ b → f a ≤ f b)
    (h : List.Chain' (· ≤ ·) l) : List.Chain' (· ≤ ·) (l.map f) := by
  rw [List.chain'_map]
  exact h.imp hf

theorem chain_analysis_progressValues (inp : RunInputs) :
    List.Chain' (· ≤ ·) (progressValues (analysisActions inp)) := by
  rw [progressValues_analysisActions]
  have hmm : (analysisCalls inp.backendAvailable inp.duration inp.extraction inp.classify).map
      (fun c => 30 + c.progress / 5) =
      ((analysisCalls inp.backendAvailable inp.duration inp.extraction inp.classify).map
        (fun c => c.progress)).map (fun x => 30 + x / 5) := by
    rw [List.map_map]
    rfl
  rw [hmm]
  refine chain_pairs _ (chain_le_map_mono _ _ ?_ (analysisCalls_progress_chain _ _ _ _))
  intro a b hab
  linarith

theorem analysis_progressValues_bounds (inp : RunInputs) :
    ∀ x ∈ progressValues (analysisActions inp), 32 ≤ x ∧ x ≤ 50 := by
  intro x hx
  rw [progressValues_analysisActions] at hx
  obtain ⟨y, hy, hxy⟩ := List.mem_flatMap.mp hx
  simp only [List.mem_cons, List.not_mem_nil, or_false] at hxy
  obtain ⟨c, hc, hcy⟩ := List.mem_map.mp hy
  have hb := analysisCalls_progress_bounds _ _ _ _ c hc
  have hxval : x = 30 + c.progress / 5 := by
    rcases hxy with h | h <;> rw [h, ← hcy]
  constructor <;> rw [hxval] <;> [linarith [hb.1]; linarith [hb.2]]

theorem chain_transcode_progressValues (ps : List ℚ) (h : List.Chain' (· ≤ ·) ps) :
    List.Chain' (· ≤ ·) (progressValues (transcodeEmits ps)) := by
  rw [progressValues_transcodeEmits]
  refine chain_le_map_mono _ _ ?_ h
  intro a b hab
  have := min_le_min hab (le_refl (100 : ℚ))
  nlinarith

theorem transcode_progressValues_bounds (ps : List ℚ) (hps : ∀ p ∈ ps, 0 ≤ p) :
    ∀ x ∈ progressValues (transcodeEmits ps), 50 ≤ x ∧ x ≤ 90 := by
  intro x hx
  rw [progressValues_transcodeEmits] at hx
  obtain ⟨p, hp, hpx⟩ := List.mem_map.mp hx
  rw [← hpx]
  have h0 : (0 : ℚ) ≤ min p 100 := le_min (hps p hp) (by norm_num)
  have h1 : min p 100 ≤ 100 := min_le_right p 100
  constructor <;> nlinarith

theorem chain'_le_append (l₁ l₂ : List ℚ) (b : ℚ) (h₁ : List.Chain' (· ≤ ·) l₁)
    (h₂ : List.Chain' (· ≤ ·) l₂) (hb₁ : ∀ x ∈ l₁, x ≤ b) (hb₂ : ∀ y ∈ l₂, b ≤ y) :
    List.Chain' (· ≤ ·) (l₁ ++ l₂) := by
  rw [List.chain'_append]
  exact ⟨h₁, h₂, fun x hx y hy =>
    le_trans (hb₁ x (List.mem_of_mem_getLast? hx)) (hb₂ y (List.mem_of_mem_head? hy))⟩

/-! ## Claim C2 -/

/-- Counterexample for C2 as stated: in a run whose compressing-persist step
rejects, the persisted progress values reach 50 and then drop to 0 when the
catch block persists the failed status with processingProgress 0 — the
progress sequence of a failing job is not non-decreasing. -/
theorem C2_counterexample :
    progressValues (processVideoAsync inpC2) = [10, 10, 30, 30, 50, 50, 50, 0] ∧
    ¬ List.Chain' (· ≤ ·) ([10, 10, 30, 30, 50, 50, 50, 0] : List ℚ) := by
  constructor
  · have htr : processVideoAsync inpC2 =
        preAnalyzing ++ analysisActions inpC2 ++
        [.emitProgress 50 compressingS none none none] ++ failTail inpC2.errMsg := by
      simp [processVideoAsync, inpC2]
    have haa : analysisActions inpC2 =
        [.emitProgress 50 noApiStatusMsg none none none, .persist (some analyzingS) 50] := by
      simp only [analysisActions, analysisCalls, inpC2, Bool.not_false, if_true,
        List.flatMap_cons, List.flatMap_nil, List.append_nil, mapCall]
      norm_num
    rw [htr, haa]
    rfl
  · intro h
    rcases List.chain'_cons.mp h with ⟨_, h⟩
    rcases List.chain'_cons.mp h with ⟨_, h⟩
    rcases List.chain'_cons.mp h with ⟨_, h⟩
    rcases List.chain'_cons.mp h with ⟨_, h⟩
    rcases List.chain'_cons.mp h with ⟨_, h⟩
    rcases List.chain'_cons.mp h with ⟨_, h⟩
    rcases List.chain'_cons.mp h with ⟨hbad, _⟩
    norm_num at hbad

/-- Claim C2 amended: on the success path — and provided the external
encoder reports non-negative, non-decreasing percentages — the sequence of
progress values across all persisted updates and emitted events of a run is
non-decreasing; on the failure path the job record is persisted with
processingProgress 0, which can decrease the sequence (see the
counterexample). -/
theorem C2_progress_monotone :
    ∀ inp : RunInputs, inp.failAt = none →
      List.Chain' (· ≤ ·) inp.transcodePercents →
      (∀ p ∈ inp.transcodePercents, 0 ≤ p) →
      List.Chain' (· ≤ ·) (progressValues (processVideoAsync inp)) := by
  intro inp hfa hch hpos
  have htr : processVideoAsync inp = preAnalyzing ++ analysisActions inp ++
      compressingActions inp ++
      [.emitProgress 95 finalizingS none none none, .persist none 95] ++ successTail inp := by
    simp [processVideoAsync, hfa]
  have hsucc : progressValues (successTail inp) = [100, 100] := rfl
  have h95 : progressValues [TraceAction.emitProgress 95 finalizingS none none none,
      .persist none 95] = [95, 95] := rfl
  have hca : progressValues (compressingActions inp) =
      [50, 50] ++ progressValues (transcodeEmits inp.transcodePercents) := by
    rw [compressingActions, progressValues_append]
    rfl
  rw [htr, progressValues_append, progressValues_append, progressValues_append,
    progressValues_append, progressValues_preAnalyzing, hsucc, h95, hca]
  have hA := analysis_progressValues_bounds inp
  have hT := transcode_progressValues_bounds inp.transcodePercents hpos
  have bound1 : ∀ x ∈ ([10, 10, 30, 30] : List ℚ) ++ progressValues (analysisActions inp),
      x ≤ 50 := by
    intro x hx
    rcases List.mem_append.mp hx with h | h
    · simp only [List.mem_cons, List.not_mem_nil, or_false] at h
      rcases h with h | h | h | h <;> rw [h] <;> norm_num
    · linarith [(hA x h).2]
  have boundC : ∀ y ∈ ([50, 50] : List ℚ) ++
      progressValues (transcodeEmits inp.transcodePercents), 50 ≤ y ∧ y ≤ 90 := by
    intro y hy
    rcases List.mem_append.mp hy with h | h
    · simp only [List.mem_cons, List.not_mem_nil, or_false] at h
      rcases h with h | h <;> rw [h] <;> norm_num
    · exact hT y h
  have c1 : List.Chain' (· ≤ ·)
      (([10, 10, 30, 30] : List ℚ) ++ progressValues (analysisActions inp)) := by
    refine chain'_le_append _ _ 30 ?_ (chain_analysis_progressValues inp) ?_ ?_
    · refine List.chain'_cons.mpr ⟨by norm_num, List.chain'_cons.mpr ⟨by norm_num,
        List.chain'_cons.mpr ⟨by norm_num, List.chain'_singleton _⟩⟩⟩
    · intro x hx
      simp only [List.mem_cons, List.not_mem_nil, or_false] at hx
      rcases hx with h | h | h | h <;> rw [h] <;> norm_num
    · intro y hy
      linarith [(hA y hy).1]
  have c2 : List.Chain' (· ≤ ·)
      (([50, 50] : List ℚ) ++ progressValues (transcodeEmits inp.transcodePercents)) := by
    refine chain'_le_append _ _ 50 ?_ (chain_transcode_progressValues _ hch) ?_ ?_
    · exact List.chain'_cons.mpr ⟨by norm_num, List.chain'_singleton _⟩
    · intro x hx
      simp only [List.mem_cons, List.not_mem_nil, or_false] at hx
      rcases hx with h | h <;> rw [h]
    · intro y hy
      exact (hT y hy).1
  have c3 : List.Chain' (· ≤ ·)
      ((([10, 10, 30, 30] : List ℚ) ++ progressValues (analysisActions inp)) ++
        (([50, 50] : List ℚ) ++ progressValues (transcodeEmits inp.transcodePercents))) := by
    refine chain'_le_append _ _ 50 c1 c2 bound1 ?_
    intro y hy
    exact (boundC y hy).1
  have bound3 : ∀ x ∈ (([10, 10, 30, 30] : List ℚ) ++ progressValues (analysisActions inp)) ++
      (([50, 50] : List ℚ) ++ progressValues (transcodeEmits inp.transcodePercents)), x ≤ 95 := by
    intro x hx
    rcases List.mem_append.mp hx with h | h
    · linarith [bound1 x h]
    · linarith [(boundC x h).2]
  have c4 : List.Chain' (· ≤ ·)
      (((([10, 10, 30, 30] : List ℚ) ++ progressValues (analysisActions inp)) ++
        (([50, 50] : List ℚ) ++ progressValues (transcodeEmits inp.transcodePercents))) ++
        ([95, 95] : List ℚ)) := by
    refine chain'_le_append _ _ 95 c3 ?_ bound3 ?_
    · exact List.chain'_cons.mpr ⟨by norm_num, List.chain'_singleton _⟩
    · intro y hy
      simp only [List.mem_cons, List.not_mem_nil, or_false] at hy
      rcases hy with h | h <;> rw [h]
  have hfinal : List.Chain' (· ≤ ·)
      ((((([10, 10, 30, 30] : List ℚ) ++ progressValues (analysisActions inp)) ++
        (([50, 50] : List ℚ) ++ progressValues (transcodeEmits inp.transcodePercents))) ++
        ([95, 95] : List ℚ)) ++ ([100, 100] : List ℚ)) := by
    refine chain'_le_append _ _ 100 c4 ?_ ?_ ?_
    · exact List.chain'_cons.mpr ⟨by norm_num, List.chain'_singleton _⟩
    · intro x hx
      rcases List.mem_append.mp hx with h | h
      · linarith [bound3 x h]
      · simp only [List.mem_cons, List.not_mem_nil, or_false] at h
        rcases h with h | h <;> rw [h] <;> norm_num
    · intro y hy
      simp only [List.mem_cons, List.not_mem_nil, or_false] at hy
      rcases hy with h | h <;> rw [h] <;> norm_num
  have hassoc : (([10, 10, 30, 30] : List ℚ) ++ progressValues (analysisActions inp)) ++
      (([50, 50] : List ℚ) ++ progressValues (transcodeEmits inp.transcodePercents)) ++
      ([95, 95] : List ℚ) ++ ([100, 100] : List ℚ) =
      ([10, 10, 30, 30] : List ℚ) ++ progressValues (analysisActions inp) ++
      (([50, 50] : List ℚ) ++ progressValues (transcodeEmits inp.transcodePercents)) ++
      ([95, 95] : List ℚ) ++ ([100, 100] : List ℚ) := by
    simp [List.append_assoc]
  rw [← hassoc]  
  exact hfinal

/-- Witness for C2: a successful run with encoder percentages 0 then 100 has
the non-decreasing progress sequence. -/
theorem C2_progress_monotone_witness :
    List.Chain' (· ≤ ·) (progressValues (processVideoAsync inpC2W)) := by
  refine C2_progress_monotone inpC2W rfl ?_ ?_
  · refine List.chain'_cons.mpr ⟨by norm_num, List.chain'_singleton _⟩
  · intro p hp
    simp only [inpC2W, List.mem_cons, List.not_mem_nil, or_false] at hp
    rcases hp with h | h <;> rw [h] <;> norm_num
